import Mathlib

/- Verification of the block-trace decoding and partial-trie reconstruction
pipeline (trace_decoder/src/decoding.rs) and of the witness trace bookkeeping
(evm_arithmetization/src/witness/traces.rs).

The decoding pipeline is embedded shallowly: Rust structs become Lean
structures, fallible code returns Except, and in-place mutation becomes
explicit state passing.  256-bit machine integers (U256/H256) are modelled as
Nat: none of the verified properties depend on wrap-around behaviour, and the
ethereum_types arithmetic used here (counter increments, balance additions)
panics rather than wraps on overflow.

The Merkle-Patricia trie library (mpt_trie), the cryptographic hash, the
minimal-subset builder and the RLP account codec are external collaborators of
the decoder; they are modelled from the specification's description of their
interfaces (each such definition carries a doc comment saying so). -/

namespace BcwZkEvm

/-! Association-list helpers standing in for HashMap and for keyed lookups. -/

/-- Lookup in an association list (models HashMap get / get_mut lookup). -/
def alookup {α : Type} : List (Nat × α) → Nat → Option α
  | [], _ => none
  | (k', v) :: rest, k => if k' = k then some v else alookup rest k

/-- Insert/overwrite in an association list, preserving the position of an
existing key (models HashMap insert and in-place mutation via get_mut). -/
def ainsert {α : Type} : List (Nat × α) → Nat → α → List (Nat × α)
  | [], k, v => [(k, v)]
  | (k', v') :: rest, k, v =>
    if k' = k then (k, v) :: rest else (k', v') :: ainsert rest k v

/-- Remove a key from an association list (models HashMap remove). -/
def aremove {α : Type} : List (Nat × α) → Nat → List (Nat × α)
  | [], _ => []
  | (k', v') :: rest, k =>
    if k' = k then aremove rest k else (k', v') :: aremove rest k

/-- Key-membership in an association list. -/
def acontains {α : Type} (l : List (Nat × α)) (k : Nat) : Bool :=
  (alookup l k).isSome

/-! ## Modelled external collaborators: hash and Merkle-Patricia tries

The spec places the trie data structure itself out of scope ("external
collaborator": get/insert/delete/subset-extraction/hash). -/

/-- Modelled from the spec: the standard 256-bit cryptographic hash of raw
address/slot bytes, used as the trie lookup key.  An injective executable
stand-in suffices; no property of the real hash (beyond being a function) is
used. -/
def model_hash (n : Nat) : Nat := n + 1

/-- Byte strings are modelled as lists of naturals. -/
abbrev Bytes := List Nat

/-- Modelled from the spec: a sparse Merkle-Patricia trie ("partial trie"),
holding the materialized key/value bindings plus an optional hash summary of
the non-materialized remainder ("all other subtrees are replaced by their
hash").  Keys are (hashed) 256-bit paths, modelled as Nat. -/
structure HashedPartialTrie where
  entries : List (Nat × Bytes)
  rest : Option Nat
deriving Repr, DecidableEq, Inhabited

namespace HashedPartialTrie

/-- Modelled from the spec: trie get. -/
def get (t : HashedPartialTrie) (k : Nat) : Option Bytes :=
  alookup t.entries k

/-- Modelled from the spec: trie insert (overwrites an existing binding). -/
def insert (t : HashedPartialTrie) (k : Nat) (v : Bytes) : HashedPartialTrie :=
  { t with entries := ainsert t.entries k v }

/-- Injective positive code of one trie binding, used by the modelled root
hash. -/
def entryCode (e : Nat × Bytes) : Nat :=
  Nat.pair e.1 (e.2.foldr (fun b acc => Nat.pair b acc + 1) 0) + 1

/-- Modelled from the spec: the trie root hash.  It is additive over the
materialized bindings plus the hash summary of the collapsed remainder, so
that replacing subtrees by their hash preserves the root hash, as the real
structure does. -/
def hash (t : HashedPartialTrie) : Nat :=
  (t.entries.map entryCode).sum + t.rest.getD 0

/-- The empty trie (HashedPartialTrie::default in the source). -/
def empty : HashedPartialTrie := ⟨[], none⟩

/-- Modelled from the spec: a trie consisting of a single hash node
(HashedPartialTrie::new(Node::Hash(h))). -/
def hashOnly (h : Nat) : HashedPartialTrie := ⟨[], some h⟩

end HashedPartialTrie

/-! ## Error model (decoding.rs, TraceParsingErrorReason / TraceDecodingError) -/

/-- All Ethereum trie types (decoding.rs TrieType). -/
inductive TrieType where
  | State
  | Storage
  | Receipt
  | Txn
deriving Repr, DecidableEq

/-- Display of a trie type (decoding.rs impl Display for TrieType). -/
def TrieType.display : TrieType → String
  | .State => "state"
  | .Storage => "storage"
  | .Receipt => "receipt"
  | .Txn => "transaction"

/-- An error reason for trie parsing (decoding.rs TraceParsingErrorReason).
The payloads of the wrapped external errors (TrieOpError,
CompactParsingError) are not modelled. -/
inductive TraceParsingErrorReason where
  | AccountDecode (bytes : Bytes)
  | MissingAccountStorageTrie (h_addr : Nat)
  | NonExistentTrieEntry (tt : TrieType) (key : Nat) (root : Nat)
  | MissingKeysCreatingSubPartialTrie (key : Nat) (tt : TrieType)
  | MissingWithdrawalAccount (addr : Nat) (h_addr : Nat) (amt : Nat)
  | TrieOpFailure
  | CompactParsingFailure
deriving Repr, DecidableEq

/-- The thiserror-derived message of a reason (decoding.rs error attributes),
with numbers rendered in decimal. -/
def TraceParsingErrorReason.display : TraceParsingErrorReason → String
  | .AccountDecode bytes =>
      "Failed to decode RLP bytes (" ++ toString bytes ++
        ") as an Ethereum account"
  | .MissingAccountStorageTrie h_addr =>
      "Missing account storage trie in base trie when constructing subset partial trie for txn (account: "
        ++ toString h_addr ++ ")"
  | .NonExistentTrieEntry tt key root =>
      "Tried accessing a non-existent key (" ++ toString key ++ ") in the " ++
        tt.display ++ " trie (root hash: " ++ toString root ++ ")"
  | .MissingKeysCreatingSubPartialTrie key tt =>
      "Missing key " ++ toString key ++
        " when creating sub-partial tries (Trie type: " ++ tt.display ++ ")"
  | .MissingWithdrawalAccount addr h_addr amt =>
      "No account present at " ++ toString addr ++ " (hashed: " ++
        toString h_addr ++ ") to withdraw " ++ toString amt ++ " Gwei from!"
  | .TrieOpFailure => "Trie operation error"
  | .CompactParsingFailure => "Compact parsing error"

/-- Contextual decoding error (decoding.rs TraceDecodingError): a reason plus
optional diagnostic context populated incrementally up the call chain. -/
structure TraceDecodingError where
  block_num : Option Nat
  block_chain_id : Option Nat
  txn_idx : Option Nat
  addr : Option Nat
  h_addr : Option Nat
  slot : Option Nat
  slot_value : Option Nat
  reason : TraceParsingErrorReason
deriving Repr, DecidableEq

namespace TraceDecodingError

/-- TraceDecodingError::new: only the reason, every context field absent. -/
def new (reason : TraceParsingErrorReason) : TraceDecodingError :=
  ⟨none, none, none, none, none, none, none, reason⟩

/-- Builder method block_num. -/
def set_block_num (e : TraceDecodingError) (v : Nat) : TraceDecodingError :=
  { e with block_num := some v }

/-- Builder method block_chain_id. -/
def set_block_chain_id (e : TraceDecodingError) (v : Nat) : TraceDecodingError :=
  { e with block_chain_id := some v }

/-- Builder method txn_idx. -/
def set_txn_idx (e : TraceDecodingError) (v : Nat) : TraceDecodingError :=
  { e with txn_idx := some v }

/-- Builder method addr. -/
def set_addr (e : TraceDecodingError) (v : Nat) : TraceDecodingError :=
  { e with addr := some v }

/-- Builder method h_addr. -/
def set_h_addr (e : TraceDecodingError) (v : Nat) : TraceDecodingError :=
  { e with h_addr := some v }

/-- Builder method slot. -/
def set_slot (e : TraceDecodingError) (v : Nat) : TraceDecodingError :=
  { e with slot := some v }

/-- Builder method slot_value. -/
def set_slot_value (e : TraceDecodingError) (v : Nat) : TraceDecodingError :=
  { e with slot_value := some v }

end TraceDecodingError

/-- Modelled from the spec: utils::optional_field — one line for a populated
context field, nothing for an absent one. -/
def optional_field (name : String) : Option Nat → List String
  | none => []
  | some v => [name ++ ": " ++ toString v]

/-- Hexadecimal rendering of a natural. -/
def hexString (n : Nat) : String := ⟨Nat.toDigits 16 n⟩

/-- Modelled from the spec: utils::optional_field_hex — like optional_field
but rendering the value in hexadecimal. -/
def optional_field_hex (name : String) : Option Nat → List String
  | none => []
  | some v => [name ++ ": 0x" ++ hexString v]

/-- Display for TraceDecodingError (decoding.rs), as the list of printed
lines: the reason first, then every populated context field on its own line,
absent fields omitted entirely.  The "Hashed Slot" line is derived by hashing
the slot when it is present. -/
def TraceDecodingError.render_lines (e : TraceDecodingError) : List String :=
  ("Error processing trace: " ++ e.reason.display) ::
    (optional_field "Block num" e.block_num ++
     optional_field "Block chain id" e.block_chain_id ++
     optional_field "Txn idx" e.txn_idx ++
     optional_field "Address" e.addr ++
     optional_field "Hashed address" e.h_addr ++
     optional_field_hex "Slot" e.slot ++
     optional_field "Hashed Slot" (e.slot.map model_hash) ++
     optional_field_hex "Slot value" e.slot_value)

/-! ## Witness traces (evm_arithmetization/src/witness/traces.rs)

The seven operation vectors hold opaque operation types; the structure is
polymorphic over them exactly as the Rust code is generic over T for cpu
rows. -/

/-- traces.rs TraceCheckpoint: per-module lengths. -/
structure TraceCheckpoint where
  arithmetic_len : Nat
  byte_packing_len : Nat
  cpu_len : Nat
  keccak_len : Nat
  keccak_sponge_len : Nat
  logic_len : Nat
  memory_len : Nat
deriving Repr, DecidableEq

/-- traces.rs Traces: the seven operation vectors. -/
structure Traces (A B C K S L M : Type) where
  arithmetic_ops : List A
  byte_packing_ops : List B
  cpu : List C
  logic_ops : List L
  memory_ops : List M
  keccak_inputs : List K
  keccak_sponge_ops : List S
deriving Repr, DecidableEq

namespace Traces

variable {A B C K S L M : Type}

/-- Traces::new. -/
def new : Traces A B C K S L M := ⟨[], [], [], [], [], [], []⟩

/-- Traces::checkpoint: the number of operations of each STARK module. -/
def checkpoint (t : Traces A B C K S L M) : TraceCheckpoint :=
  { arithmetic_len := t.arithmetic_ops.length
    byte_packing_len := t.byte_packing_ops.length
    cpu_len := t.cpu.length
    keccak_len := t.keccak_inputs.length
    keccak_sponge_len := t.keccak_sponge_ops.length
    logic_len := t.logic_ops.length
    memory_len := t.memory_ops.length }

/-- Traces::rollback: truncate every vector to its checkpointed length. -/
def rollback (t : Traces A B C K S L M) (c : TraceCheckpoint) :
    Traces A B C K S L M :=
  { arithmetic_ops := t.arithmetic_ops.take c.arithmetic_len
    byte_packing_ops := t.byte_packing_ops.take c.byte_packing_len
    cpu := t.cpu.take c.cpu_len
    logic_ops := t.logic_ops.take c.logic_len
    memory_ops := t.memory_ops.take c.memory_len
    keccak_inputs := t.keccak_inputs.take c.keccak_len
    keccak_sponge_ops := t.keccak_sponge_ops.take c.keccak_sponge_len }

/-- Traces::mem_ops_since: the memory operations recorded after the
checkpoint. -/
def mem_ops_since (t : Traces A B C K S L M) (c : TraceCheckpoint) : List M :=
  t.memory_ops.drop c.memory_len

/-- Appending operations to every vector of a Traces value (the effect of any
interleaving of the push_* record operations since a checkpoint). -/
def extend (t : Traces A B C K S L M) (as' : List A) (bs : List B) (cs : List C)
    (ks : List K) (ss : List S) (ls : List L) (ms : List M) :
    Traces A B C K S L M :=
  { arithmetic_ops := t.arithmetic_ops ++ as'
    byte_packing_ops := t.byte_packing_ops ++ bs
    cpu := t.cpu ++ cs
    logic_ops := t.logic_ops ++ ls
    memory_ops := t.memory_ops ++ ms
    keccak_inputs := t.keccak_inputs ++ ks
    keccak_sponge_ops := t.keccak_sponge_ops ++ ss }

end Traces

/-! ## Delta applicator data model (decoding.rs + types.rs constants) -/

/-- The canonical RLP encoding of a zero storage-slot value
(types.rs ZERO_STORAGE_SLOT_VAL_RLPED), modelled as the one-byte RLP of the
integer zero. -/
def ZERO_STORAGE_SLOT_VAL_RLPED : Bytes := [128]

/-- Modelled from the spec: a decoded Ethereum account record
(aliased MptAccountRlp: balance, nonce, storage root, code hash). -/
structure MptAccountRlp where
  balance : Nat
  nonce : Nat
  storage_root : Nat
  code_hash : Nat
deriving Repr, DecidableEq, Inhabited

/-- Modelled from the spec: injective RLP encoding of an account record as a
four-field byte sequence (rlp::encode). -/
def rlp_encode_account (a : MptAccountRlp) : Bytes :=
  [a.balance, a.nonce, a.storage_root, a.code_hash]

/-- Modelled from the spec: decoding RLP bytes into an account, failing with
an AccountDecode reason on malformed input (account_from_rlped_bytes). -/
def account_from_rlped_bytes (b : Bytes) :
    Except TraceDecodingError MptAccountRlp :=
  match b with
  | [bal, non, sr, ch] => .ok ⟨bal, non, sr, ch⟩
  | _ => .error (.new (.AccountDecode b))

/-- The canonical RLP encoding of the empty account
(types.rs EMPTY_ACCOUNT_BYTES_RLPED). -/
def EMPTY_ACCOUNT_BYTES_RLPED : Bytes :=
  rlp_encode_account ⟨0, 0, 0, 0⟩

/-- processed_block_trace.rs StateTrieWrites: the per-account state delta;
only fields explicitly present are changed, the storage-root change is a
flag resolved against the live storage trie. -/
structure StateTrieWrites where
  balance : Option Nat
  nonce : Option Nat
  storage_trie_change : Bool
  code_hash : Option Nat
deriving Repr, DecidableEq

/-- utils::update_val_if_some: overwrite only when the update is present. -/
def update_val_if_some (cur : Nat) (upd : Option Nat) : Nat := upd.getD cur

/-- decoding.rs TrieDeltaApplicationOutput: deletes during delta application
may require additional, non-accessed nodes to stay unhashed. -/
structure TrieDeltaApplicationOutput where
  additional_state_trie_paths_to_not_hash : List Nat
  additional_storage_trie_paths_to_not_hash : List (Nat × List Nat)
deriving Repr, DecidableEq, Inhabited

/-- TrieDeltaApplicationOutput::default. -/
def TrieDeltaApplicationOutput.default : TrieDeltaApplicationOutput := ⟨[], []⟩

/-- The .entry(acct).or_default().push(key) idiom on the per-account
additional-storage-paths map. -/
def TrieDeltaApplicationOutput.push_storage_path
    (out : TrieDeltaApplicationOutput) (h_addr key : Nat) :
    TrieDeltaApplicationOutput :=
  { out with
    additional_storage_trie_paths_to_not_hash :=
      ainsert out.additional_storage_trie_paths_to_not_hash h_addr
        ((alookup out.additional_storage_trie_paths_to_not_hash h_addr).getD []
          ++ [key]) }

/-- Modelled from the spec: mpt_trie node deletion reporting a branch
collapse.  Deleting an absent key is a no-op reporting nothing; deleting a
present key removes its binding and, when the branch above it collapses into
a single remaining child, reports that child's nibble path.  The collapse
condition is modelled as: exactly one remaining materialized key shares the
deleted key's parent branch (its path with the final nibble dropped). -/
def delete_node_and_report_remaining_key_if_branch_collapsed
    (t : HashedPartialTrie) (k : Nat) : HashedPartialTrie × Option Nat :=
  match t.get k with
  | none => (t, none)
  | some _ =>
    let remaining := t.entries.filter (fun e => e.1 ≠ k)
    let siblings := remaining.filter (fun e => e.1 / 16 = k / 16)
    ({ entries := remaining, rest := t.rest },
     match siblings with
     | [e] => some e.1
     | _ => none)

/-- processed_block_trace.rs NodesUsedByTxn: what one transaction read and
wrote, produced upstream and consumed read-only. -/
structure NodesUsedByTxn where
  state_accesses : List Nat
  state_writes : List (Nat × StateTrieWrites)
  storage_accesses : List (Nat × List Nat)
  storage_writes : List (Nat × List (Nat × Bytes))
  self_destructed_accounts : List Nat
  state_accounts_with_no_accesses_but_storage_tries : List (Nat × Nat)
deriving Repr, DecidableEq

/-- decoding.rs TxnMetaState: raw encoded transaction and receipt plus gas. -/
structure TxnMetaState where
  txn_bytes : Option Bytes
  receipt_node_bytes : Bytes
  gas_used : Nat
deriving Repr, DecidableEq

/-- TxnMetaState::txn_bytes(): the raw bytes, defaulting to empty. -/
def TxnMetaState.txn_bytes_or_empty (m : TxnMetaState) : Bytes :=
  m.txn_bytes.getD []

/-- The mutable per-block trie state (decoding_mpt.rs PartialTrieState): one
state, transaction and receipt trie plus the storage tries keyed by hashed
account address. -/
structure PartialTrieState where
  state : HashedPartialTrie
  txn : HashedPartialTrie
  receipt : HashedPartialTrie
  storage : List (Nat × HashedPartialTrie)
deriving Repr, DecidableEq, Inhabited

/-! ## Delta applicator (decoding.rs apply_deltas_to_trie_state) -/

/-- One storage write (slot, value) against one account's storage trie
(the inner loop of the storage-writes phase).  The slot key is the hash of
the raw slot bytes.  A write of the canonical zero value is a deletion
(recording the remaining key on branch collapse); any other value is an
insertion. -/
def apply_one_storage_write (h_addr : Nat)
    (acc : HashedPartialTrie × TrieDeltaApplicationOutput) (w : Nat × Bytes) :
    HashedPartialTrie × TrieDeltaApplicationOutput :=
  let slot := model_hash w.1
  if w.2 = ZERO_STORAGE_SLOT_VAL_RLPED then
    let (trie', remaining) :=
      delete_node_and_report_remaining_key_if_branch_collapsed acc.1 slot
    (trie',
     match remaining with
     | some key => acc.2.push_storage_path h_addr key
     | none => acc.2)
  else
    (acc.1.insert slot w.2, acc.2)

/-- All storage writes of one account, in order. -/
def apply_slot_writes (h_addr : Nat) (writes : List (Nat × Bytes))
    (t : HashedPartialTrie) (out : TrieDeltaApplicationOutput) :
    HashedPartialTrie × TrieDeltaApplicationOutput :=
  writes.foldl (apply_one_storage_write h_addr) (t, out)

/-- The storage-writes phase: for each (hashed account, writes) group, the
account's storage trie is fetched (failing with MissingAccountStorageTrie,
the hashed address attached, when absent) and mutated in place. -/
def apply_storage_writes :
    List (Nat × List (Nat × Bytes)) → List (Nat × HashedPartialTrie) →
    TrieDeltaApplicationOutput →
    Except TraceDecodingError (List (Nat × HashedPartialTrie) × TrieDeltaApplicationOutput)
  | [], storage, out => .ok (storage, out)
  | (h_addr, writes) :: rest, storage, out =>
    match alookup storage h_addr with
    | none =>
      .error ((TraceDecodingError.new
        (.MissingAccountStorageTrie h_addr)).set_h_addr h_addr)
    | some trie =>
      let (trie', out') := apply_slot_writes h_addr writes trie out
      apply_storage_writes rest (ainsert storage h_addr trie') out'

/-- StateTrieWrites::apply_writes_to_state_node: conditional field updates;
the storage-root update, when flagged, is the hash of the account's live
storage trie and a missing trie there is a hard error. -/
def apply_writes_to_state_node (w : StateTrieWrites) (state_node : MptAccountRlp)
    (h_addr : Nat) (acc_storage_tries : List (Nat × HashedPartialTrie)) :
    Except TraceDecodingError MptAccountRlp :=
  match w.storage_trie_change, alookup acc_storage_tries h_addr with
  | true, none =>
    .error ((TraceDecodingError.new
      (.MissingAccountStorageTrie h_addr)).set_h_addr h_addr)
  | true, some storage_trie =>
    .ok { balance := update_val_if_some state_node.balance w.balance
          nonce := update_val_if_some state_node.nonce w.nonce
          storage_root := update_val_if_some state_node.storage_root
            (some storage_trie.hash)
          code_hash := update_val_if_some state_node.code_hash w.code_hash }
  | false, _ =>
    .ok { balance := update_val_if_some state_node.balance w.balance
          nonce := update_val_if_some state_node.nonce w.nonce
          storage_root := update_val_if_some state_node.storage_root none
          code_hash := update_val_if_some state_node.code_hash w.code_hash }

/-- The state-writes phase: fetch the current account record (the canonical
empty-account encoding when absent), apply the writes, and re-insert the
re-encoded account. -/
def apply_state_writes :
    List (Nat × StateTrieWrites) → HashedPartialTrie →
    List (Nat × HashedPartialTrie) →
    Except TraceDecodingError HashedPartialTrie
  | [], state, _ => .ok state
  | (h_addr, w) :: rest, state, storage =>
    match account_from_rlped_bytes
        ((state.get h_addr).getD EMPTY_ACCOUNT_BYTES_RLPED) with
    | .error e => .error e
    | .ok account =>
      match apply_writes_to_state_node w account h_addr storage with
      | .error e => .error e
      | .ok account' =>
        apply_state_writes rest
          (state.insert h_addr (rlp_encode_account account')) storage

/-- The self-destruct phase: each self-destructed account's storage-trie
entry is removed entirely (MissingAccountStorageTrie, hashed address
attached, when absent) and its state-trie entry deleted, any branch-collapse
remaining key recorded in the block-level state path list. -/
def apply_self_destructs :
    List Nat → List (Nat × HashedPartialTrie) → HashedPartialTrie →
    TrieDeltaApplicationOutput →
    Except TraceDecodingError
      (List (Nat × HashedPartialTrie) × HashedPartialTrie × TrieDeltaApplicationOutput)
  | [], storage, state, out => .ok (storage, state, out)
  | h_addr :: rest, storage, state, out =>
    if acontains storage h_addr then
      let storage' := aremove storage h_addr
      let (state', remaining) :=
        delete_node_and_report_remaining_key_if_branch_collapsed state h_addr
      let out' :=
        match remaining with
        | some key =>
          { out with
            additional_state_trie_paths_to_not_hash :=
              out.additional_state_trie_paths_to_not_hash ++ [key] }
        | none => out
      apply_self_destructs rest storage' state' out'
    else
      .error ((TraceDecodingError.new
        (.MissingAccountStorageTrie h_addr)).set_h_addr h_addr)

/-- decoding.rs apply_deltas_to_trie_state: storage writes, then state
writes, then self-destructs, short-circuiting at the first error; returns the
accumulated paths-to-not-hash plus the mutated trie state. -/
def apply_deltas_to_trie_state (trie_state : PartialTrieState)
    (deltas : NodesUsedByTxn) :
    Except TraceDecodingError (TrieDeltaApplicationOutput × PartialTrieState) :=
  match apply_storage_writes deltas.storage_writes trie_state.storage
      TrieDeltaApplicationOutput.default with
  | .error e => .error e
  | .ok (storage, out) =>
    match apply_state_writes deltas.state_writes trie_state.state storage with
    | .error e => .error e
    | .ok state =>
      match apply_self_destructs deltas.self_destructed_accounts storage state
          out with
      | .error e => .error e
      | .ok (storage', state', out') =>
        .ok (out', { trie_state with storage := storage', state := state' })

/-! ## IR data model (aliased_crate_types: extra block data, trie inputs,
generation inputs) -/

/-- MptExtraBlockData: running counters needed by every IR unit. -/
structure MptExtraBlockData where
  checkpoint_state_trie_root : Nat
  txn_number_before : Nat
  txn_number_after : Nat
  gas_used_before : Nat
  gas_used_after : Nat
deriving Repr, DecidableEq

/-- Block metadata (the b_meta fields the decoder reads). -/
structure BlockMetadata where
  block_number : Nat
  block_chain_id : Nat
  block_beneficiary : Nat
deriving Repr, DecidableEq, Inhabited

/-- OtherBlockData, with b_data flattened into its b_meta/b_hashes parts;
block hashes are opaque to the decoder. -/
structure OtherBlockData where
  b_meta : BlockMetadata
  b_hashes : Nat
  checkpoint_state_trie_root : Nat
deriving Repr, DecidableEq

/-- MptTrieRoots: the three post-transaction root hashes. -/
structure MptTrieRoots where
  state_root : Nat
  transactions_root : Nat
  receipts_root : Nat
deriving Repr, DecidableEq, Inhabited

/-- MptTrieInputs: the minimal trie subsets carried by one IR unit. -/
structure MptTrieInputs where
  state_trie : HashedPartialTrie
  transactions_trie : HashedPartialTrie
  receipts_trie : HashedPartialTrie
  storage_tries : List (Nat × HashedPartialTrie)
deriving Repr, DecidableEq, Inhabited

/-- GenerationInputs: one self-contained provable IR unit, with exactly the
fields the decoder populates. -/
structure GenerationInputs where
  txn_number_before : Nat
  gas_used_before : Nat
  gas_used_after : Nat
  signed_txn : Option Bytes
  withdrawals : List (Nat × Nat)
  tries : MptTrieInputs
  trie_roots_after : MptTrieRoots
  checkpoint_state_trie_root : Nat
  contract_code : List (Nat × Bytes)
  block_metadata : BlockMetadata
  block_hashes : Nat
deriving Repr, DecidableEq, Inhabited

/-- Modelled from the spec: the transaction-number-after counter of an IR
unit.  GenerationInputs does not record it as a field; per the spec each real
transaction advances the transaction counter by exactly one while a dummy
unit (no signed transaction) has equal before/after counters. -/
def ir_txn_number_after (u : GenerationInputs) : Nat :=
  u.txn_number_before + (if u.signed_txn.isSome then 1 else 0)

/-- processed_block_trace.rs ProcessedSectionTxnInfo: one transaction's
upstream record. -/
structure ProcessedSectionTxnInfo where
  nodes_used_by_txn : NodesUsedByTxn
  contract_code_accessed : List (Nat × Bytes)
  meta : TxnMetaState
deriving Repr, DecidableEq

/-! ## Minimal subset builder (modelled external collaborator) -/

/-- Modelled from the spec: mpt_trie create_trie_subset.  The copy keeps the
bindings of the requested keys as full nodes and collapses the remainder of
the trie into its hash; it fails with MissingKeysCreatingSubPartialTrie when
a requested key has no corresponding materialized path in the trie. -/
def create_trie_subset (tt : TrieType) (t : HashedPartialTrie)
    (keys : List Nat) : Except TraceDecodingError HashedPartialTrie :=
  match keys.find? (fun k => (t.get k).isNone) with
  | some k => .error (.new (.MissingKeysCreatingSubPartialTrie k tt))
  | none =>
    .ok { entries := t.entries.filter (fun e => keys.contains e.1)
          rest := some
            (((t.entries.filter (fun e => !keys.contains e.1)).map
              HashedPartialTrie.entryCode).sum + t.rest.getD 0) }

/-- decoding.rs create_fully_hashed_out_sub_partial_trie: a trie with just a
hash node, built as the trie subset over an empty key iterator (which cannot
fail). -/
def create_fully_hashed_out_sub_partial_trie (t : HashedPartialTrie) :
    HashedPartialTrie :=
  HashedPartialTrie.hashOnly t.hash

/-- Modelled from the spec: create_minimal_state_partial_trie — the minimal
state-trie subset for the accessed hashed addresses plus the additional
paths that must stay unhashed. -/
def create_minimal_state_partial_trie (state : HashedPartialTrie)
    (accessed : List Nat) (additional : List Nat) :
    Except TraceDecodingError HashedPartialTrie :=
  create_trie_subset .State state (accessed ++ additional)

/-- Modelled from the spec: the per-account minimal storage-trie subsets, one
per storage-accessed account, each over the hashed accessed slots plus that
account's additional paths from delta application. -/
def create_minimal_storage_subsets :
    List (Nat × List Nat) → List (Nat × HashedPartialTrie) →
    TrieDeltaApplicationOutput →
    Except TraceDecodingError (List (Nat × HashedPartialTrie))
  | [], _, _ => .ok []
  | (h_addr, slots) :: rest, storage, delta_out =>
    match create_trie_subset .Storage
        ((alookup storage h_addr).getD HashedPartialTrie.empty)
        (slots.map model_hash ++
          (alookup delta_out.additional_storage_trie_paths_to_not_hash
            h_addr).getD []) with
    | .error e => .error e
    | .ok sub =>
      (create_minimal_storage_subsets rest storage delta_out).map
        (fun l => (h_addr, sub) :: l)

/-- Modelled from the spec: create_minimal_partial_tries_needed_by_txn — from
the pre-transaction snapshot, the accessed keys and the delta side-output,
the minimal tries proving this one transaction.  The transaction/receipt
subsets are fully hashed out here since their accessed path is the one
inserted after the snapshot was taken. -/
def create_minimal_partial_tries_needed_by_txn (snapshot : PartialTrieState)
    (nodes_used : NodesUsedByTxn) (_txn_idx : Nat)
    (delta_out : TrieDeltaApplicationOutput) (_beneficiary : Nat) :
    Except TraceDecodingError MptTrieInputs :=
  match create_minimal_state_partial_trie snapshot.state
      nodes_used.state_accesses
      delta_out.additional_state_trie_paths_to_not_hash with
  | .error e => .error e
  | .ok state_trie =>
    match create_minimal_storage_subsets nodes_used.storage_accesses
        snapshot.storage delta_out with
    | .error e => .error e
    | .ok storage_tries =>
      .ok { state_trie := state_trie
            transactions_trie :=
              create_fully_hashed_out_sub_partial_trie snapshot.txn
            receipts_trie :=
              create_fully_hashed_out_sub_partial_trie snapshot.receipt
            storage_tries := storage_tries }

/-! ## Transaction processor (decoding.rs process_txn_info and helpers) -/

/-- decoding.rs update_txn_and_receipt_tries: insert the raw transaction and
receipt bytes keyed by the RLP-encoded transaction index (the index encoding
is modelled as the index itself, an injective key). -/
def update_txn_and_receipt_tries (trie_state : PartialTrieState)
    (meta : TxnMetaState) (txn_idx : Nat) : PartialTrieState :=
  let txn_k := txn_idx
  { trie_state with
    txn := trie_state.txn.insert txn_k meta.txn_bytes_or_empty
    receipt := trie_state.receipt.insert txn_k meta.receipt_node_bytes }

/-- The storage trie seeded for an account that lacks one: empty by default,
or a single hash node carrying the known storage root when the account
appears in the no-accesses-but-storage-tries map. -/
def seeded_storage_trie
    (state_accounts_with_no_accesses_but_storage_tries : List (Nat × Nat))
    (h_addr : Nat) : HashedPartialTrie :=
  match alookup state_accounts_with_no_accesses_but_storage_tries h_addr with
  | some s_root => HashedPartialTrie.hashOnly s_root
  | none => HashedPartialTrie.empty

/-- The loop body of init_any_needed_empty_storage_tries: one account's
storage trie seeded when absent. -/
def init_one_storage_trie
    (state_accounts_with_no_accesses_but_storage_tries : List (Nat × Nat))
    (st : List (Nat × HashedPartialTrie)) (h_addr : Nat) :
    List (Nat × HashedPartialTrie) :=
  if acontains st h_addr then st
  else
    ainsert st h_addr
      (seeded_storage_trie state_accounts_with_no_accesses_but_storage_tries
        h_addr)

/-- decoding.rs init_any_needed_empty_storage_tries: every storage-accessed
account lacking a storage trie gets one created before delta application.
(The stray ill-formed set_storage_slot statement in the source body binds no
variables and is not modellable; the insertion below is the function's
evident effect.) -/
def init_any_needed_empty_storage_tries
    (storage_tries : List (Nat × HashedPartialTrie))
    (accounts_with_storage : List Nat)
    (state_accounts_with_no_accesses_but_storage_tries : List (Nat × Nat)) :
    List (Nat × HashedPartialTrie) :=
  accounts_with_storage.foldl
    (init_one_storage_trie state_accounts_with_no_accesses_but_storage_tries)
    storage_tries

/-- decoding.rs calculate_trie_input_hashes. -/
def calculate_trie_input_hashes (t_inputs : PartialTrieState) : MptTrieRoots :=
  { state_root := t_inputs.state.hash
    transactions_root := t_inputs.txn.hash
    receipts_root := t_inputs.receipt.hash }

/-- decoding.rs process_txn_info: seed missing storage tries, advance the
after-counters, snapshot, insert txn/receipt nodes, apply deltas, build the
minimal subsets, hash the live tries, assemble the IR unit from the entry
before-counters, and only then advance the before-counters. -/
def process_txn_info (txn_idx : Nat) (txn_info : ProcessedSectionTxnInfo)
    (curr_block_tries : PartialTrieState) (extra_data : MptExtraBlockData)
    (other_data : OtherBlockData) :
    Except TraceDecodingError
      (GenerationInputs × PartialTrieState × MptExtraBlockData) :=
  let curr_block_tries :=
    { curr_block_tries with
      storage := init_any_needed_empty_storage_tries curr_block_tries.storage
        (txn_info.nodes_used_by_txn.storage_accesses.map (fun e => e.1))
        txn_info.nodes_used_by_txn.state_accounts_with_no_accesses_but_storage_tries }
  let extra_data :=
    { extra_data with
      txn_number_after := extra_data.txn_number_after + 1
      gas_used_after := extra_data.gas_used_after + txn_info.meta.gas_used }
  let tries_at_start_of_txn := curr_block_tries
  let curr_block_tries :=
    update_txn_and_receipt_tries curr_block_tries txn_info.meta txn_idx
  match apply_deltas_to_trie_state curr_block_tries
      txn_info.nodes_used_by_txn with
  | .error e => .error e
  | .ok (delta_out, curr_block_tries) =>
    match create_minimal_partial_tries_needed_by_txn tries_at_start_of_txn
        txn_info.nodes_used_by_txn txn_idx delta_out
        other_data.b_meta.block_beneficiary with
    | .error e => .error e
    | .ok tries =>
      let gen_inputs : GenerationInputs :=
        { txn_number_before := extra_data.txn_number_before
          gas_used_before := extra_data.gas_used_before
          gas_used_after := extra_data.gas_used_after
          signed_txn := txn_info.meta.txn_bytes
          withdrawals := []
          tries := tries
          trie_roots_after := calculate_trie_input_hashes curr_block_tries
          checkpoint_state_trie_root := extra_data.checkpoint_state_trie_root
          contract_code := txn_info.contract_code_accessed
          block_metadata := other_data.b_meta
          block_hashes := other_data.b_hashes }
      let extra_data' :=
        { extra_data with
          txn_number_before := extra_data.txn_number_before + 1
          gas_used_before := extra_data.gas_used_after }
      .ok (gen_inputs, curr_block_tries, extra_data')

/-! ## Block finalizer (decoding.rs padding, dummies, withdrawals) -/

/-- decoding.rs create_dummy_proof_trie_inputs: every trie of the dummy fully
hashed out, except the supplied state trie. -/
def create_dummy_proof_trie_inputs (final_tries_at_end_of_block : PartialTrieState)
    (state_trie : HashedPartialTrie) : MptTrieInputs :=
  { state_trie := state_trie
    transactions_trie :=
      create_fully_hashed_out_sub_partial_trie final_tries_at_end_of_block.txn
    receipts_trie :=
      create_fully_hashed_out_sub_partial_trie final_tries_at_end_of_block.receipt
    storage_tries := final_tries_at_end_of_block.storage.map
      (fun e => (e.1, create_fully_hashed_out_sub_partial_trie e.2)) }

/-- decoding.rs create_dummy_gen_input_common: a non-mutating IR unit with no
signed transaction, whose post-roots are the hashes of its own sub-tries.
(The source asserts equal before/after counters here; both call sites pass
extra data with equal counters, which the padding theorems make explicit.) -/
def create_dummy_gen_input_common (other_data : OtherBlockData)
    (extra_data : MptExtraBlockData) (sub_tries : MptTrieInputs) :
    GenerationInputs :=
  { txn_number_before := extra_data.txn_number_before
    gas_used_before := extra_data.gas_used_before
    gas_used_after := extra_data.gas_used_after
    signed_txn := none
    withdrawals := []
    tries := sub_tries
    trie_roots_after :=
      { state_root := sub_tries.state_trie.hash
        transactions_root := sub_tries.transactions_trie.hash
        receipts_root := sub_tries.receipts_trie.hash }
    checkpoint_state_trie_root := extra_data.checkpoint_state_trie_root
    contract_code := []
    block_metadata := other_data.b_meta
    block_hashes := other_data.b_hashes }

/-- decoding.rs create_dummy_gen_input. -/
def create_dummy_gen_input (other_data : OtherBlockData)
    (extra_data : MptExtraBlockData) (final_tries : PartialTrieState) :
    GenerationInputs :=
  create_dummy_gen_input_common other_data extra_data
    (create_dummy_proof_trie_inputs final_tries
      (create_fully_hashed_out_sub_partial_trie final_tries.state))

/-- decoding.rs create_dummy_txn_pair_for_empty_block. -/
def create_dummy_txn_pair_for_empty_block (other_data : OtherBlockData)
    (extra_data : MptExtraBlockData) (final_tries : PartialTrieState) :
    List GenerationInputs :=
  [create_dummy_gen_input other_data extra_data final_tries,
   create_dummy_gen_input other_data extra_data final_tries]

/-- decoding.rs pad_gen_inputs_with_dummy_inputs_if_needed: zero units get
two dummies (from the final extra data and the initial tries — equal to the
final ones in that case since nothing executed); one unit gets a single dummy
from the initial extra data and the pre-block tries prepended; two or more
units are returned unpadded. -/
def pad_gen_inputs_with_dummy_inputs_if_needed
    (gen_inputs : List GenerationInputs) (other_data : OtherBlockData)
    (final_extra_data : MptExtraBlockData)
    (initial_extra_data : MptExtraBlockData)
    (initial_tries : PartialTrieState) (_final_tries : PartialTrieState) :
    List GenerationInputs :=
  match gen_inputs with
  | [] =>
    create_dummy_txn_pair_for_empty_block other_data final_extra_data
      initial_tries
  | [x] =>
    [create_dummy_gen_input other_data initial_extra_data initial_tries, x]
  | _ => gen_inputs

/-- decoding.rs update_trie_state_from_withdrawals: read-modify-write of each
recipient's balance, erroring with MissingWithdrawalAccount (address and
hashed address attached) when the account is absent from the state trie. -/
def update_trie_state_from_withdrawals :
    List (Nat × Nat × Nat) → HashedPartialTrie →
    Except TraceDecodingError HashedPartialTrie
  | [], state => .ok state
  | (addr, h_addr, amt) :: rest, state =>
    match state.get h_addr with
    | none =>
      .error (((TraceDecodingError.new
        (.MissingWithdrawalAccount addr h_addr amt)).set_addr addr).set_h_addr
          h_addr)
    | some acc_bytes =>
      match account_from_rlped_bytes acc_bytes with
      | .error e => .error e
      | .ok acc_data =>
        update_trie_state_from_withdrawals rest
          (state.insert h_addr
            (rlp_encode_account
              { acc_data with balance := acc_data.balance + amt }))

/-- decoding.rs add_withdrawals_to_txns: withdrawals land only in the final
IR unit; a dummy final unit first has its state-trie subset re-derived from
its own state trie to cover the withdrawal recipients; the live state trie's
balances are updated and the final unit's post-state root overwritten.  (The
source unwraps a non-empty payload list; both call sites guarantee at least
two entries after padding.) -/
def add_withdrawals_to_txns (txn_ir : List GenerationInputs)
    (final_trie_state : PartialTrieState) (withdrawals : List (Nat × Nat)) :
    Except TraceDecodingError (List GenerationInputs × PartialTrieState) :=
  let withdrawals_with_hashed_addrs :=
    withdrawals.map (fun w => (w.1, model_hash w.1, w.2))
  let last_inputs := txn_ir.getLast?.getD default
  match
    (if last_inputs.signed_txn.isNone then
      (create_minimal_state_partial_trie last_inputs.tries.state_trie
        (withdrawals_with_hashed_addrs.map (fun x => x.2.1)) []).map
        (fun st =>
          { last_inputs with
            tries := { last_inputs.tries with state_trie := st } })
     else .ok last_inputs) with
  | .error e => .error e
  | .ok last_inputs =>
    match update_trie_state_from_withdrawals withdrawals_with_hashed_addrs
        final_trie_state.state with
    | .error e => .error e
    | .ok state' =>
      .ok (txn_ir.dropLast ++
            [{ last_inputs with
               withdrawals := withdrawals
               trie_roots_after :=
                 { last_inputs.trie_roots_after with
                   state_root := state'.hash } }],
          { final_trie_state with state := state' })

/-- The enumerate-map-collect transaction loop of decoding.rs process_txns:
the trie state and extra data thread through, and a failing transaction's
error is stamped with its index by the immediate caller. -/
def process_txns_loop (other_data : OtherBlockData) :
    Nat → List ProcessedSectionTxnInfo → PartialTrieState →
    MptExtraBlockData →
    Except TraceDecodingError
      (List GenerationInputs × PartialTrieState × MptExtraBlockData)
  | _, [], ts, ed => .ok ([], ts, ed)
  | txn_idx, info :: rest, ts, ed =>
    match process_txn_info txn_idx info ts ed other_data with
    | .error e => .error (e.set_txn_idx txn_idx)
    | .ok (gi, ts', ed') =>
      (process_txns_loop other_data (txn_idx + 1) rest ts' ed').map
        (fun r => (gi :: r.1, r.2))

/-- The per-block extra data at loop entry: the checkpoint root plus zeroed
running counters (process_txns). -/
def initial_extra_block_data (other_data : OtherBlockData) :
    MptExtraBlockData :=
  { checkpoint_state_trie_root := other_data.checkpoint_state_trie_root
    txn_number_before := 0
    txn_number_after := 0
    gas_used_before := 0
    gas_used_after := 0 }

/-- decoding.rs process_txns: run the loop from zeroed counters, stamp a
failure with block number and chain id, pad with dummies, then fold in the
withdrawals when the block has any. -/
def process_txns (txns : List ProcessedSectionTxnInfo)
    (tries : PartialTrieState) (withdrawals : List (Nat × Nat))
    (other_data : OtherBlockData) :
    Except TraceDecodingError (List GenerationInputs) :=
  let initial_tries_for_dummies := tries
  let extra_data : MptExtraBlockData := initial_extra_block_data other_data
  let extra_data_for_dummies := extra_data
  match process_txns_loop other_data 0 txns tries extra_data with
  | .error e =>
    .error ((e.set_block_num other_data.b_meta.block_number).set_block_chain_id
      other_data.b_meta.block_chain_id)
  | .ok (ir, curr_block_tries, final_extra) =>
    let ir := pad_gen_inputs_with_dummy_inputs_if_needed ir other_data
      final_extra extra_data_for_dummies initial_tries_for_dummies
      curr_block_tries
    if withdrawals.isEmpty then .ok ir
    else
      (add_withdrawals_to_txns ir curr_block_tries withdrawals).map
        (fun r => r.1)

/-- The error value built at every missing-account-storage-trie site: the
reason plus the hashed address context field. -/
def mast_error (h_addr : Nat) : TraceDecodingError :=
  (TraceDecodingError.new (.MissingAccountStorageTrie h_addr)).set_h_addr
    h_addr

/-- The chaining of before/after counters along a list of IR units: the
first unit's counters start at the given transaction number and gas, and
each unit advances the transaction number by one and the gas to its own
gas_used_after. -/
def counter_chain : Nat → Nat → List GenerationInputs → Prop
  | _, _, [] => True
  | tn, g, u :: rest =>
    u.txn_number_before = tn ∧ u.gas_used_before = g ∧
      counter_chain (tn + 1) u.gas_used_after rest

/-! Concrete sample inputs used by the witness theorems. -/

/-- Sample block data: block number 7, chain id 1. -/
def sample_other_data : OtherBlockData :=
  ⟨⟨7, 1, 0⟩, 0, 0⟩

/-- Sample pre-block trie state: all tries empty. -/
def sample_tries : PartialTrieState :=
  ⟨HashedPartialTrie.empty, HashedPartialTrie.empty, HashedPartialTrie.empty,
    []⟩

/-- Sample transaction record: raw bytes present, no deltas, gas 3. -/
def sample_txn : ProcessedSectionTxnInfo :=
  ⟨⟨[], [], [], [], [], []⟩, [], ⟨some [1], [2], 3⟩⟩

/-- Sample failing transaction record: a storage write of value [7] to slot
5 of account 9, which owns no storage trie and is not storage-accessed. -/
def sample_failing_txn : ProcessedSectionTxnInfo :=
  ⟨⟨[], [], [], [(9, [(5, [7])])], [], []⟩, [], ⟨some [1], [2], 0⟩⟩

/-- Sample pre-block trie state owning one account: hashed address
model_hash 1 with well-formed account bytes. -/
def sample_tries_with_account : PartialTrieState :=
  ⟨HashedPartialTrie.mk [(model_hash 1, [6, 0, 0, 0])] none,
    HashedPartialTrie.empty, HashedPartialTrie.empty, []⟩

/-- The fully enriched error surfaced for the sample storage-write failure:
missing storage trie for account 9, transaction index 3, block 7, chain 1. -/
def sample_storage_write_error : TraceDecodingError :=
  ⟨some 7, some 1, some 3, none, some 9, none, none,
    .MissingAccountStorageTrie 9⟩

/-! ## C10: witness trace checkpoint and rollback -/

/-- C10: taking a checkpoint, appending any operations to any of the seven
operation vectors, then rolling back to the checkpoint restores every vector
exactly (in particular rollback immediately after checkpoint is the
identity), and mem_ops_since returns exactly the memory operations appended
since the checkpoint, in order. -/
theorem traces_checkpoint_rollback_mem_ops_since
    {A B C K S L M : Type} (t : Traces A B C K S L M)
    (as' : List A) (bs : List B) (cs : List C) (ks : List K) (ss : List S)
    (ls : List L) (ms : List M) :
    (t.extend as' bs cs ks ss ls ms).rollback t.checkpoint = t ∧
    (t.extend as' bs cs ks ss ls ms).mem_ops_since t.checkpoint = ms ∧
    t.rollback t.checkpoint = t := by
  refine ⟨?_, ?_, ?_⟩
  · simp [Traces.extend, Traces.rollback, Traces.checkpoint, List.take_left]
  · simp [Traces.extend, Traces.mem_ops_since, Traces.checkpoint,
      List.drop_left]
  · simp [Traces.rollback, Traces.checkpoint]

/-- Sanity: the direct hash-node definition agrees with the subset builder on
an empty key iterator. -/
theorem create_fully_hashed_out_eq_subset (tt : TrieType)
    (t : HashedPartialTrie) :
    create_trie_subset tt t []
      = .ok (create_fully_hashed_out_sub_partial_trie t) := by
  simp [create_trie_subset, create_fully_hashed_out_sub_partial_trie,
    HashedPartialTrie.hashOnly, HashedPartialTrie.hash]

/-! ## Basic lemmas about the association-list and trie operations -/

theorem alookup_ainsert {α : Type} (l : List (Nat × α)) (k k' : Nat) (v : α) :
    alookup (ainsert l k v) k' = if k = k' then some v else alookup l k' := by
  induction l with
  | nil => simp [ainsert, alookup]
  | cons e rest ih =>
    obtain ⟨a, b⟩ := e
    simp only [ainsert]
    by_cases h1 : a = k
    · subst h1
      rw [if_pos rfl]
      by_cases h2 : a = k' <;> simp [alookup, h2]
    · rw [if_neg h1]
      by_cases h2 : a = k'
      · subst h2
        have hne : ¬ k = a := fun hh => h1 hh.symm
        simp [alookup, hne]
      · simp [alookup, h2, ih]

theorem alookup_aremove {α : Type} (l : List (Nat × α)) (k k' : Nat) :
    alookup (aremove l k) k' = if k' = k then none else alookup l k' := by
  induction l with
  | nil => simp [aremove, alookup]
  | cons e rest ih =>
    obtain ⟨a, b⟩ := e
    simp only [aremove]
    by_cases h1 : a = k
    · subst h1
      rw [if_pos rfl, ih]
      by_cases h2 : k' = a
      · simp [h2]
      · have hne : ¬ a = k' := fun hh => h2 hh.symm
        simp [alookup, h2, hne]
    · rw [if_neg h1]
      by_cases h2 : a = k'
      · subst h2
        simp [alookup, h1]
      · simp [alookup, h2, ih]

theorem acontains_ainsert {α : Type} (l : List (Nat × α)) (k k' : Nat)
    (v : α) :
    acontains (ainsert l k v) k' = (decide (k = k') || acontains l k') := by
  by_cases h : k = k' <;> simp [acontains, alookup_ainsert, h]

theorem acontains_ainsert_of_mem {α : Type} (l : List (Nat × α)) (k k' : Nat)
    (v : α) (h : acontains l k = true) :
    acontains (ainsert l k v) k' = acontains l k' := by
  by_cases hkk : k = k'
  · subst hkk
    simp [acontains_ainsert, h]
  · simp [acontains_ainsert, hkk]

theorem alookup_filter_ne {α : Type} (l : List (Nat × α)) (k k' : Nat) :
    alookup (l.filter (fun e => !decide (e.1 = k))) k' =
      if k' = k then none else alookup l k' := by
  induction l with
  | nil => simp [alookup]
  | cons e rest ih =>
    obtain ⟨a, b⟩ := e
    by_cases h1 : a = k
    · subst h1
      rw [List.filter_cons_of_neg (by simp), ih]
      by_cases h2 : k' = a
      · simp [h2]
      · have hne : ¬ a = k' := fun hh => h2 hh.symm
        simp [alookup, h2, hne]
    · rw [List.filter_cons_of_pos (by simp [h1])]
      by_cases h2 : a = k'
      · subst h2
        simp [alookup, h1]
      · simp [alookup, h2, ih]

namespace HashedPartialTrie

theorem get_insert (t : HashedPartialTrie) (k : Nat) (v : Bytes) (k' : Nat) :
    (t.insert k v).get k' = if k = k' then some v else t.get k' := by
  simp [get, insert, alookup_ainsert]

theorem get_delete (t : HashedPartialTrie) (k k' : Nat) :
    (delete_node_and_report_remaining_key_if_branch_collapsed t k).1.get k' =
      if k' = k then none else t.get k' := by
  unfold delete_node_and_report_remaining_key_if_branch_collapsed
  cases hk : t.get k with
  | none =>
    by_cases h : k' = k
    · subst h
      simp [hk]
    · simp [h]
  | some v => simp [get, alookup_filter_ne]

theorem hash_hashOnly (h : Nat) : (hashOnly h).hash = h := by
  simp [hashOnly, hash]

end HashedPartialTrie

/-! ## C8: empty-storage-trie seeding -/

theorem acontains_init_one (known : List (Nat × Nat))
    (st : List (Nat × HashedPartialTrie)) (a h : Nat) :
    acontains (init_one_storage_trie known st a) h =
      (decide (a = h) || acontains st h) := by
  unfold init_one_storage_trie
  by_cases hc : acontains st a
  · rw [if_pos hc]
    by_cases hah : a = h
    · subst hah
      simp [hc]
    · simp [hah]
  · rw [if_neg hc, acontains_ainsert]

theorem alookup_init_one_ne (known : List (Nat × Nat))
    (st : List (Nat × HashedPartialTrie)) (a h : Nat) (hne : ¬ a = h) :
    alookup (init_one_storage_trie known st a) h = alookup st h := by
  unfold init_one_storage_trie
  by_cases hc : acontains st a
  · rw [if_pos hc]
  · rw [if_neg hc, alookup_ainsert, if_neg hne]

theorem alookup_init_one_self_absent (known : List (Nat × Nat))
    (st : List (Nat × HashedPartialTrie)) (a : Nat)
    (habs : acontains st a = false) :
    alookup (init_one_storage_trie known st a) a =
      some (seeded_storage_trie known a) := by
  unfold init_one_storage_trie
  rw [if_neg (by simp [habs]), alookup_ainsert, if_pos rfl]

theorem init_contains_of_contains (known : List (Nat × Nat))
    (accounts : List Nat) :
    ∀ st h, acontains st h = true →
      acontains (accounts.foldl (init_one_storage_trie known) st) h = true := by
  induction accounts with
  | nil => intro st h hc; simpa using hc
  | cons a rest ih =>
    intro st h hc
    simp only [List.foldl_cons]
    exact ih _ h (by rw [acontains_init_one, hc, Bool.or_true])

theorem init_contains_of_mem (known : List (Nat × Nat))
    (accounts : List Nat) :
    ∀ st h, h ∈ accounts →
      acontains (accounts.foldl (init_one_storage_trie known) st) h = true := by
  induction accounts with
  | nil => intro st h hm; cases hm
  | cons a rest ih =>
    intro st h hm
    simp only [List.foldl_cons]
    rcases List.mem_cons.mp hm with hh | hh
    · subst hh
      exact init_contains_of_contains known rest _ h
        (by rw [acontains_init_one]; simp)
    · exact ih _ h hh

theorem init_lookup_of_contains (known : List (Nat × Nat))
    (accounts : List Nat) :
    ∀ st h, acontains st h = true →
      alookup (accounts.foldl (init_one_storage_trie known) st) h =
        alookup st h := by
  induction accounts with
  | nil => intro st h _; rfl
  | cons a rest ih =>
    intro st h hc
    simp only [List.foldl_cons]
    by_cases hah : a = h
    · subst hah
      rw [ih _ a (by rw [acontains_init_one]; simp)]
      unfold init_one_storage_trie
      rw [if_pos hc]
    · rw [ih _ h (by rw [acontains_init_one, hc, Bool.or_true]),
        alookup_init_one_ne known st a h hah]

theorem init_lookup_of_mem_absent (known : List (Nat × Nat))
    (accounts : List Nat) :
    ∀ st h, h ∈ accounts → acontains st h = false →
      alookup (accounts.foldl (init_one_storage_trie known) st) h =
        some (seeded_storage_trie known h) := by
  induction accounts with
  | nil => intro st h hm; cases hm
  | cons a rest ih =>
    intro st h hm habs
    simp only [List.foldl_cons]
    by_cases hah : a = h
    · subst hah
      rw [init_lookup_of_contains known rest _ a
          (by rw [acontains_init_one]; simp),
        alookup_init_one_self_absent known st a habs]
    · rcases List.mem_cons.mp hm with hh | hh
      · exact absurd hh.symm hah
      · exact ih _ h hh (by rw [acontains_init_one]; simp [hah, habs])

theorem apply_storage_writes_ok_of_contains
    (writes : List (Nat × List (Nat × Bytes))) :
    ∀ storage out, (∀ p ∈ writes, acontains storage p.1 = true) →
      ∃ r, apply_storage_writes writes storage out = .ok r := by
  induction writes with
  | nil => intro storage out _; exact ⟨_, rfl⟩
  | cons w rest ih =>
    intro storage out hall
    obtain ⟨h_addr, ws⟩ := w
    have hc : acontains storage h_addr = true :=
      hall _ (List.mem_cons_self _ _)
    unfold acontains at hc
    cases hl : alookup storage h_addr with
    | none => rw [hl] at hc; cases hc
    | some trie =>
      obtain ⟨r, hr⟩ := ih (ainsert storage h_addr
          (apply_slot_writes h_addr ws trie out).1)
        ((apply_slot_writes h_addr ws trie out).2)
        (fun p hp => by
          rw [acontains_ainsert_of_mem _ _ _ _ (by simp [acontains, hl])]
          exact hall p (List.mem_cons_of_mem _ hp))
      exact ⟨r, by simp [apply_storage_writes, hl, hr]⟩

/-- C8: at the start of processing each transaction, before any delta is
applied, every storage-accessed hashed account that lacks a storage trie has
one created: an account already owning a trie is untouched; an absent one is
seeded with a single hash node carrying the known storage root when listed in
the no-accesses-but-storage-tries map, and with the empty trie otherwise;
consequently the storage-write lookups of this transaction's delta
application cannot fail for storage-accessed accounts. -/
theorem init_any_needed_empty_storage_tries_correct :
    (∀ storage accounts known h_addr, h_addr ∈ accounts →
      acontains (init_any_needed_empty_storage_tries storage accounts known)
        h_addr = true) ∧
    (∀ storage accounts known h_addr, acontains storage h_addr = true →
      alookup (init_any_needed_empty_storage_tries storage accounts known)
        h_addr = alookup storage h_addr) ∧
    (∀ storage accounts known h_addr, h_addr ∈ accounts →
      acontains storage h_addr = false →
      alookup (init_any_needed_empty_storage_tries storage accounts known)
        h_addr = some (seeded_storage_trie known h_addr)) ∧
    (∀ storage accounts known writes out,
      (∀ p ∈ writes, p.1 ∈ accounts) →
      ∃ r, apply_storage_writes writes
        (init_any_needed_empty_storage_tries storage accounts known) out
          = .ok r) := by
  refine ⟨?_, ?_, ?_, ?_⟩
  · intro storage accounts known h_addr hm
    exact init_contains_of_mem known accounts storage h_addr hm
  · intro storage accounts known h_addr hc
    exact init_lookup_of_contains known accounts storage h_addr hc
  · intro storage accounts known h_addr hm habs
    exact init_lookup_of_mem_absent known accounts storage h_addr hm habs
  · intro storage accounts known writes out hsub
    exact apply_storage_writes_ok_of_contains writes _ out
      (fun p hp =>
        init_contains_of_mem known accounts storage p.1 (hsub p hp))

/-- Witness for C8 at a concrete input: account 4 is storage-accessed, has no
storage trie, and appears in the known-roots map with root 99; it gets a
hash-node trie, and a subsequent storage write to it succeeds. -/
theorem init_any_needed_empty_storage_tries_correct_witness :
    acontains (init_any_needed_empty_storage_tries [] [4] [(4, 99)]) 4 = true ∧
    alookup (init_any_needed_empty_storage_tries [] [4] [(4, 99)]) 4 =
      some (HashedPartialTrie.hashOnly 99) ∧
    (∃ r, apply_storage_writes [(4, [(5, [7])])]
      (init_any_needed_empty_storage_tries [] [4] [(4, 99)])
      TrieDeltaApplicationOutput.default = .ok r) := by
  refine ⟨?_, ?_, ?_⟩
  · exact init_any_needed_empty_storage_tries_correct.1 [] [4] [(4, 99)] 4
      (by decide)
  · have h := init_any_needed_empty_storage_tries_correct.2.2.1 [] [4]
      [(4, 99)] 4 (by decide) (by decide)
    rw [h]
    rfl
  · exact init_any_needed_empty_storage_tries_correct.2.2.2 [] [4] [(4, 99)]
      [(4, [(5, [7])])] TrieDeltaApplicationOutput.default
      (by intro p hp; simp at hp; simp [hp])

/-! ## C2 and C9: zero-valued storage writes -/

theorem apply_one_storage_write_no_zero (h_addr : Nat) (t : HashedPartialTrie)
    (out : TrieDeltaApplicationOutput) (slot : Nat) (val : Bytes)
    (hinv : ∀ s, t.get s ≠ some ZERO_STORAGE_SLOT_VAL_RLPED) :
    ∀ s, (apply_one_storage_write h_addr (t, out) (slot, val)).1.get s ≠
      some ZERO_STORAGE_SLOT_VAL_RLPED := by
  intro s
  unfold apply_one_storage_write
  by_cases hz : val = ZERO_STORAGE_SLOT_VAL_RLPED
  · rw [if_pos (by simpa using hz)]
    rw [HashedPartialTrie.get_delete]
    by_cases hs : s = model_hash slot
    · simp [hs]
    · simpa [hs] using hinv s
  · rw [if_neg (by simpa using hz)]
    rw [HashedPartialTrie.get_insert]
    by_cases hs : model_hash slot = s
    · simp only [if_pos hs]
      intro hcon
      exact hz (Option.some.injEq _ _ ▸ hcon)
    · simpa [hs] using hinv s

theorem apply_slot_writes_no_zero (h_addr : Nat)
    (writes : List (Nat × Bytes)) :
    ∀ t out, (∀ s, t.get s ≠ some ZERO_STORAGE_SLOT_VAL_RLPED) →
      ∀ s, (apply_slot_writes h_addr writes t out).1.get s ≠
        some ZERO_STORAGE_SLOT_VAL_RLPED := by
  induction writes with
  | nil => intro t out hinv s; exact hinv s
  | cons w rest ih =>
    intro t out hinv s
    obtain ⟨slot, val⟩ := w
    have hstep := apply_one_storage_write_no_zero h_addr t out slot val hinv
    unfold apply_slot_writes at ih ⊢
    rw [List.foldl_cons]
    have := ih (apply_one_storage_write h_addr (t, out) (slot, val)).1
      (apply_one_storage_write h_addr (t, out) (slot, val)).2 hstep s
    simpa using this

/-- C2: a storage write whose value equals the canonical zero-slot encoding
is translated into a deletion of the (hashed) slot, never an insertion: the
resulting trie is the deletion result, and when the deletion collapses a
branch into a single remaining child that child's key is appended to the
per-account additional storage paths of the delta output; a non-zero value
is a plain insertion; and processing any write list never stores the encoded
zero in the trie. -/
theorem zero_storage_write_is_deletion :
    (∀ h_addr t out slot,
      (apply_one_storage_write h_addr (t, out)
        (slot, ZERO_STORAGE_SLOT_VAL_RLPED)).1 =
      (delete_node_and_report_remaining_key_if_branch_collapsed t
        (model_hash slot)).1) ∧
    (∀ h_addr t out slot key,
      (delete_node_and_report_remaining_key_if_branch_collapsed t
        (model_hash slot)).2 = some key →
      alookup (apply_one_storage_write h_addr (t, out)
          (slot, ZERO_STORAGE_SLOT_VAL_RLPED)).2.additional_storage_trie_paths_to_not_hash
          h_addr =
        some ((alookup out.additional_storage_trie_paths_to_not_hash
          h_addr).getD [] ++ [key])) ∧
    (∀ h_addr t out slot val, val ≠ ZERO_STORAGE_SLOT_VAL_RLPED →
      apply_one_storage_write h_addr (t, out) (slot, val) =
        (t.insert (model_hash slot) val, out)) ∧
    (∀ h_addr writes t out,
      (∀ s, t.get s ≠ some ZERO_STORAGE_SLOT_VAL_RLPED) →
      ∀ s, (apply_slot_writes h_addr writes t out).1.get s ≠
        some ZERO_STORAGE_SLOT_VAL_RLPED) := by
  refine ⟨?_, ?_, ?_, ?_⟩
  · intro h_addr t out slot
    unfold apply_one_storage_write
    rw [if_pos (by simp)]
  · intro h_addr t out slot key hkey
    unfold apply_one_storage_write
    rw [if_pos (by simp)]
    simp only [hkey]
    simp [TrieDeltaApplicationOutput.push_storage_path, alookup_ainsert]
  · intro h_addr t out slot val hv
    unfold apply_one_storage_write
    rw [if_neg (by simpa using hv)]
  · exact fun h_addr writes t out hinv s =>
      apply_slot_writes_no_zero h_addr writes t out hinv s

/-- Witness for C2 at a concrete input: deleting hashed slot 5 from a trie
with bindings at keys 5 and 7 collapses the branch to the single remaining
sibling 7, which is recorded under account 1; a non-zero write is an
insertion; a zero write never stores the encoded zero. -/
theorem zero_storage_write_is_deletion_witness :
    ((apply_one_storage_write 1
        (HashedPartialTrie.mk [(5, [7]), (7, [9])] none,
          TrieDeltaApplicationOutput.default)
        (4, ZERO_STORAGE_SLOT_VAL_RLPED)).1 =
      (delete_node_and_report_remaining_key_if_branch_collapsed
        (HashedPartialTrie.mk [(5, [7]), (7, [9])] none) (model_hash 4)).1) ∧
    (alookup (apply_one_storage_write 1
        (HashedPartialTrie.mk [(5, [7]), (7, [9])] none,
          TrieDeltaApplicationOutput.default)
        (4, ZERO_STORAGE_SLOT_VAL_RLPED)).2.additional_storage_trie_paths_to_not_hash
        1 = some [7]) ∧
    (apply_one_storage_write 1
        (HashedPartialTrie.mk [(5, [7]), (7, [9])] none,
          TrieDeltaApplicationOutput.default) (4, [9]) =
      ((HashedPartialTrie.mk [(5, [7]), (7, [9])] none).insert (model_hash 4)
        [9], TrieDeltaApplicationOutput.default)) ∧
    ((apply_slot_writes 1 [(4, ZERO_STORAGE_SLOT_VAL_RLPED)]
        (HashedPartialTrie.mk [(5, [7]), (7, [9])] none)
        TrieDeltaApplicationOutput.default).1.get 5 ≠
      some ZERO_STORAGE_SLOT_VAL_RLPED) := by
  refine ⟨?_, ?_, ?_, ?_⟩
  · exact zero_storage_write_is_deletion.1 1 _ _ 4
  · have h := zero_storage_write_is_deletion.2.1 1
      (HashedPartialTrie.mk [(5, [7]), (7, [9])] none)
      TrieDeltaApplicationOutput.default 4 7 (by decide)
    rw [h]
    rfl
  · exact zero_storage_write_is_deletion.2.2.1 1 _ _ 4 [9] (by decide)
  · refine zero_storage_write_is_deletion.2.2.2 1 _ _ _ ?_ 5
    intro s
    simp only [HashedPartialTrie.get, alookup]
    by_cases h5 : (5 : Nat) = s
    · simp [h5, ZERO_STORAGE_SLOT_VAL_RLPED]
    · by_cases h7 : (7 : Nat) = s
      · simp [h5, h7, ZERO_STORAGE_SLOT_VAL_RLPED]
      · simp [h5, h7]

/-- C9 counterexample: a slot that already holds the stored encoded zero is
not a no-op target — the zero-valued write deletes the binding and the root
hash changes.  (The claim's no-op guarantee only holds for slots absent from
the trie.) -/
theorem zero_write_on_stored_zero_changes_hash :
    ((HashedPartialTrie.mk [(model_hash 5, ZERO_STORAGE_SLOT_VAL_RLPED)]
        none).get (model_hash 5) = some ZERO_STORAGE_SLOT_VAL_RLPED) ∧
    HashedPartialTrie.hash
        (apply_one_storage_write 1
          (HashedPartialTrie.mk [(model_hash 5, ZERO_STORAGE_SLOT_VAL_RLPED)]
            none, TrieDeltaApplicationOutput.default)
          (5, ZERO_STORAGE_SLOT_VAL_RLPED)).1 ≠
      HashedPartialTrie.hash
        (HashedPartialTrie.mk [(model_hash 5, ZERO_STORAGE_SLOT_VAL_RLPED)]
          none) := by
  decide

/-- C9 (amended): the zero-valued storage write of a slot absent from the
trie never fails — the zero branch of the write has no failure path at all —
and is a complete no-op: trie, delta output and hence root hash are
unchanged. -/
theorem zero_write_absent_slot_is_noop (h_addr : Nat) (t : HashedPartialTrie)
    (out : TrieDeltaApplicationOutput) (slot : Nat)
    (habs : t.get (model_hash slot) = none) :
    apply_one_storage_write h_addr (t, out)
        (slot, ZERO_STORAGE_SLOT_VAL_RLPED) = (t, out) ∧
    HashedPartialTrie.hash
        (apply_one_storage_write h_addr (t, out)
          (slot, ZERO_STORAGE_SLOT_VAL_RLPED)).1 = t.hash := by
  have h1 : apply_one_storage_write h_addr (t, out)
      (slot, ZERO_STORAGE_SLOT_VAL_RLPED) = (t, out) := by
    unfold apply_one_storage_write
    rw [if_pos (by simp)]
    unfold delete_node_and_report_remaining_key_if_branch_collapsed
    rw [habs]
  exact ⟨h1, by rw [h1]⟩

/-- Witness for C9 (amended) at a concrete input: hashed slot 4 is absent
from a one-entry trie, and the zero write leaves everything unchanged. -/
theorem zero_write_absent_slot_is_noop_witness :
    apply_one_storage_write 1
        (HashedPartialTrie.mk [(9, [7])] none,
          TrieDeltaApplicationOutput.default)
        (3, ZERO_STORAGE_SLOT_VAL_RLPED) =
      (HashedPartialTrie.mk [(9, [7])] none,
        TrieDeltaApplicationOutput.default) :=
  (zero_write_absent_slot_is_noop 1 (HashedPartialTrie.mk [(9, [7])] none)
    TrieDeltaApplicationOutput.default 3 (by decide)).1

theorem apply_one_storage_write_zero (h_addr : Nat) (t : HashedPartialTrie)
    (out : TrieDeltaApplicationOutput) (slot : Nat) (val : Bytes)
    (hz : val = ZERO_STORAGE_SLOT_VAL_RLPED) :
    apply_one_storage_write h_addr (t, out) (slot, val) =
      ((delete_node_and_report_remaining_key_if_branch_collapsed t
        (model_hash slot)).1,
       match (delete_node_and_report_remaining_key_if_branch_collapsed t
         (model_hash slot)).2 with
       | some key => out.push_storage_path h_addr key
       | none => out) := by
  subst hz
  unfold apply_one_storage_write
  rw [if_pos (by simp)]

theorem apply_one_storage_write_nonzero (h_addr : Nat)
    (t : HashedPartialTrie) (out : TrieDeltaApplicationOutput) (slot : Nat)
    (val : Bytes) (hz : ¬ val = ZERO_STORAGE_SLOT_VAL_RLPED) :
    apply_one_storage_write h_addr (t, out) (slot, val) =
      (t.insert (model_hash slot) val, out) := by
  unfold apply_one_storage_write
  rw [if_neg (by simpa using hz)]

/-! ## C4: self-destruct removal -/

theorem apply_self_destructs_preserves_none (sd : List Nat) :
    ∀ storage state out r,
      apply_self_destructs sd storage state out = .ok r →
      ∀ h, alookup storage h = none → state.get h = none →
        alookup r.1 h = none ∧ r.2.1.get h = none := by
  induction sd with
  | nil =>
    intro storage state out r hok h h1 h2
    unfold apply_self_destructs at hok
    cases hok
    exact ⟨h1, h2⟩
  | cons a rest ih =>
    intro storage state out r hok h h1 h2
    unfold apply_self_destructs at hok
    by_cases hc : acontains storage a
    · rw [if_pos hc] at hok
      refine ih _ _ _ _ hok h ?_ ?_
      · rw [alookup_aremove]
        by_cases hha : h = a <;> simp [hha, h1]
      · show (delete_node_and_report_remaining_key_if_branch_collapsed state
          a).1.get h = none
        rw [HashedPartialTrie.get_delete]
        by_cases hha : h = a <;> simp [hha, h2]
    · rw [if_neg hc] at hok
      cases hok

theorem apply_self_destructs_removes (sd : List Nat) :
    ∀ storage state out r,
      apply_self_destructs sd storage state out = .ok r →
      ∀ h ∈ sd, alookup r.1 h = none ∧ r.2.1.get h = none := by
  induction sd with
  | nil => intro storage state out r _ h hm; cases hm
  | cons a rest ih =>
    intro storage state out r hok h hm
    unfold apply_self_destructs at hok
    by_cases hc : acontains storage a
    · rw [if_pos hc] at hok
      rcases List.mem_cons.mp hm with hh | hh
      · subst hh
        refine apply_self_destructs_preserves_none rest _ _ _ _ hok h ?_ ?_
        · rw [alookup_aremove, if_pos rfl]
        · show (delete_node_and_report_remaining_key_if_branch_collapsed state
            h).1.get h = none
          rw [HashedPartialTrie.get_delete, if_pos rfl]
      · exact ih _ _ _ _ hok h hh
    · rw [if_neg hc] at hok
      cases hok

theorem apply_self_destructs_out (sd : List Nat) :
    ∀ storage state out r,
      apply_self_destructs sd storage state out = .ok r →
      r.2.2.additional_storage_trie_paths_to_not_hash =
          out.additional_storage_trie_paths_to_not_hash ∧
        ∃ appended, r.2.2.additional_state_trie_paths_to_not_hash =
          out.additional_state_trie_paths_to_not_hash ++ appended := by
  induction sd with
  | nil =>
    intro storage state out r hok
    unfold apply_self_destructs at hok
    cases hok
    exact ⟨rfl, [], by simp⟩
  | cons a rest ih =>
    intro storage state out r hok
    unfold apply_self_destructs at hok
    by_cases hc : acontains storage a
    · rw [if_pos hc] at hok
      have hok' : apply_self_destructs rest (aremove storage a)
          (delete_node_and_report_remaining_key_if_branch_collapsed state a).1
          (match (delete_node_and_report_remaining_key_if_branch_collapsed
              state a).2 with
            | some key =>
              { out with
                additional_state_trie_paths_to_not_hash :=
                  out.additional_state_trie_paths_to_not_hash ++ [key] }
            | none => out) = .ok r := hok
      cases hrem : (delete_node_and_report_remaining_key_if_branch_collapsed
          state a).2 with
      | none =>
        rw [hrem] at hok'
        exact ih _ _ _ _ hok'
      | some key =>
        rw [hrem] at hok'
        obtain ⟨hs, appended, hst⟩ := ih _ _ _ _ hok'
        exact ⟨hs, [key] ++ appended, by simpa using hst⟩
    · rw [if_neg hc] at hok
      cases hok

theorem apply_slot_writes_out_other (h_addr : Nat)
    (writes : List (Nat × Bytes)) :
    ∀ t out a, ¬ a = h_addr →
      alookup (apply_slot_writes h_addr writes t
          out).2.additional_storage_trie_paths_to_not_hash a =
        alookup out.additional_storage_trie_paths_to_not_hash a := by
  induction writes with
  | nil => intro t out a _; rfl
  | cons w rest ih =>
    intro t out a hne
    unfold apply_slot_writes at ih ⊢
    rw [List.foldl_cons]
    have hstep :
        alookup (apply_one_storage_write h_addr (t, out)
            w).2.additional_storage_trie_paths_to_not_hash a =
          alookup out.additional_storage_trie_paths_to_not_hash a := by
      obtain ⟨slot, val⟩ := w
      by_cases hz : val = ZERO_STORAGE_SLOT_VAL_RLPED
      · rw [apply_one_storage_write_zero h_addr t out slot val hz]
        cases hrem : (delete_node_and_report_remaining_key_if_branch_collapsed
            t (model_hash slot)).2 with
        | none => rfl
        | some key =>
          simp only [TrieDeltaApplicationOutput.push_storage_path]
          rw [alookup_ainsert, if_neg (fun hh => hne hh.symm)]
      · rw [apply_one_storage_write_nonzero h_addr t out slot val hz]
    calc alookup (List.foldl (apply_one_storage_write h_addr)
          (apply_one_storage_write h_addr (t, out) w)
          rest).2.additional_storage_trie_paths_to_not_hash a
        = alookup (apply_one_storage_write h_addr (t, out)
            w).2.additional_storage_trie_paths_to_not_hash a := by
          have := ih (apply_one_storage_write h_addr (t, out) w).1
            (apply_one_storage_write h_addr (t, out) w).2 a hne
          simpa using this
      _ = alookup out.additional_storage_trie_paths_to_not_hash a := hstep

theorem apply_storage_writes_out_other
    (writes : List (Nat × List (Nat × Bytes))) :
    ∀ storage out r, apply_storage_writes writes storage out = .ok r →
      ∀ a, a ∉ writes.map (fun p => p.1) →
        alookup r.2.additional_storage_trie_paths_to_not_hash a =
          alookup out.additional_storage_trie_paths_to_not_hash a := by
  induction writes with
  | nil =>
    intro storage out r hok a _
    unfold apply_storage_writes at hok
    cases hok
    rfl
  | cons w rest ih =>
    intro storage out r hok a ha
    obtain ⟨h_addr, ws⟩ := w
    unfold apply_storage_writes at hok
    cases hl : alookup storage h_addr with
    | none => rw [hl] at hok; cases hok
    | some trie =>
      rw [hl] at hok
      simp only at hok
      have hne : ¬ a = h_addr := by
        intro hh
        exact ha (by simp [hh])
      have h2 := ih _ _ _ hok a (fun hh => ha (by simp at hh ⊢; exact .inr hh))
      rw [h2]
      exact apply_slot_writes_out_other h_addr ws trie out a hne

/-- C4: after a successful delta application, every self-destructed hashed
account has been removed from the storage-tries map and deleted from the
state trie — looking up either reports not-present; the self-destruct phase
records any branch-collapse remaining key in the block-level additional
state-trie path list, never in the per-account storage map (which it leaves
untouched); and the per-account map only ever carries entries for
storage-written accounts. -/
theorem self_destruct_removes_storage_and_state :
    (∀ trie_state deltas out' trie_state',
      apply_deltas_to_trie_state trie_state deltas = .ok (out', trie_state') →
      ∀ h ∈ deltas.self_destructed_accounts,
        alookup trie_state'.storage h = none ∧
          trie_state'.state.get h = none) ∧
    (∀ sd storage state out r,
      apply_self_destructs sd storage state out = .ok r →
      r.2.2.additional_storage_trie_paths_to_not_hash =
          out.additional_storage_trie_paths_to_not_hash ∧
        ∃ appended, r.2.2.additional_state_trie_paths_to_not_hash =
          out.additional_state_trie_paths_to_not_hash ++ appended) ∧
    (∀ trie_state deltas out' trie_state',
      apply_deltas_to_trie_state trie_state deltas = .ok (out', trie_state') →
      ∀ a, a ∉ deltas.storage_writes.map (fun p => p.1) →
        alookup out'.additional_storage_trie_paths_to_not_hash a = none) := by
  refine ⟨?_, ?_, ?_⟩
  · intro trie_state deltas out' trie_state' hok h hm
    unfold apply_deltas_to_trie_state at hok
    cases h1 : apply_storage_writes deltas.storage_writes trie_state.storage
        TrieDeltaApplicationOutput.default with
    | error e => rw [h1] at hok; cases hok
    | ok r1 =>
      rw [h1] at hok
      simp only at hok
      cases h2 : apply_state_writes deltas.state_writes trie_state.state
          r1.1 with
      | error e => rw [h2] at hok; cases hok
      | ok state2 =>
        rw [h2] at hok
        simp only at hok
        cases h3 : apply_self_destructs deltas.self_destructed_accounts r1.1
            state2 r1.2 with
        | error e => rw [h3] at hok; cases hok
        | ok r3 =>
          rw [h3] at hok
          simp only at hok
          cases hok
          exact apply_self_destructs_removes _ _ _ _ _ h3 h hm
  · intro sd storage state out r hok
    exact apply_self_destructs_out sd storage state out r hok
  · intro trie_state deltas out' trie_state' hok a ha
    unfold apply_deltas_to_trie_state at hok
    cases h1 : apply_storage_writes deltas.storage_writes trie_state.storage
        TrieDeltaApplicationOutput.default with
    | error e => rw [h1] at hok; cases hok
    | ok r1 =>
      rw [h1] at hok
      simp only at hok
      cases h2 : apply_state_writes deltas.state_writes trie_state.state
          r1.1 with
      | error e => rw [h2] at hok; cases hok
      | ok state2 =>
        rw [h2] at hok
        simp only at hok
        cases h3 : apply_self_destructs deltas.self_destructed_accounts r1.1
            state2 r1.2 with
        | error e => rw [h3] at hok; cases hok
        | ok r3 =>
          rw [h3] at hok
          simp only at hok
          cases hok
          have hphase3 := (apply_self_destructs_out _ _ _ _ _ h3).1
          have hphase1 := apply_storage_writes_out_other _ _ _ _ h1 a ha
          rw [hphase3, hphase1]
          rfl

/-- Witness for C4 at a concrete input: account 2 owns a storage trie and a
state entry; after a delta whose only content is the self-destruct of 2,
neither lookup finds it. -/
theorem self_destruct_removes_storage_and_state_witness :
    ∃ out' trie_state',
      apply_deltas_to_trie_state
        (PartialTrieState.mk (HashedPartialTrie.mk [(2, [0, 0, 0, 0])] none)
          HashedPartialTrie.empty HashedPartialTrie.empty
          [(2, HashedPartialTrie.empty)])
        (NodesUsedByTxn.mk [] [] [] [] [2] []) = .ok (out', trie_state') ∧
      alookup trie_state'.storage 2 = none ∧
        trie_state'.state.get 2 = none := by
  obtain ⟨r, hres⟩ :
      ∃ r, apply_deltas_to_trie_state
        (PartialTrieState.mk (HashedPartialTrie.mk [(2, [0, 0, 0, 0])] none)
          HashedPartialTrie.empty HashedPartialTrie.empty
          [(2, HashedPartialTrie.empty)])
        (NodesUsedByTxn.mk [] [] [] [] [2] []) = .ok r := ⟨_, rfl⟩
  refine ⟨r.1, r.2, hres, ?_⟩
  exact self_destruct_removes_storage_and_state.1 _ _ r.1 r.2 hres 2
    (by decide)

/-! ## C6: the missing-account-storage-trie error -/

theorem apply_storage_writes_error_iff_missing
    (writes : List (Nat × List (Nat × Bytes))) :
    ∀ storage out e, apply_storage_writes writes storage out = .error e →
      ∃ h_addr ws, (h_addr, ws) ∈ writes ∧
        acontains storage h_addr = false ∧ e = mast_error h_addr := by
  induction writes with
  | nil => intro storage out e he; cases he
  | cons w rest ih =>
    intro storage out e he
    obtain ⟨h_addr, ws⟩ := w
    unfold apply_storage_writes at he
    cases hl : alookup storage h_addr with
    | none =>
      rw [hl] at he
      cases he
      exact ⟨h_addr, ws, List.mem_cons_self _ _, by simp [acontains, hl],
        rfl⟩
    | some trie =>
      rw [hl] at he
      simp only at he
      obtain ⟨h', ws', hmem, hcont, hform⟩ := ih _ _ _ he
      refine ⟨h', ws', List.mem_cons_of_mem _ hmem, ?_, hform⟩
      rw [acontains_ainsert_of_mem _ _ _ _ (by simp [acontains, hl])] at hcont
      exact hcont

theorem apply_storage_writes_preserves_keys
    (writes : List (Nat × List (Nat × Bytes))) :
    ∀ storage out r, apply_storage_writes writes storage out = .ok r →
      ∀ a, acontains r.1 a = acontains storage a := by
  induction writes with
  | nil =>
    intro storage out r hok a
    cases hok
    rfl
  | cons w rest ih =>
    intro storage out r hok a
    obtain ⟨h_addr, ws⟩ := w
    unfold apply_storage_writes at hok
    cases hl : alookup storage h_addr with
    | none => rw [hl] at hok; cases hok
    | some trie =>
      rw [hl] at hok
      simp only at hok
      rw [ih _ _ _ hok a,
        acontains_ainsert_of_mem _ _ _ _ (by simp [acontains, hl])]

theorem apply_writes_to_state_node_error (w : StateTrieWrites)
    (acct : MptAccountRlp) (h_addr : Nat)
    (storage : List (Nat × HashedPartialTrie)) (e : TraceDecodingError) :
    apply_writes_to_state_node w acct h_addr storage = .error e →
      w.storage_trie_change = true ∧ acontains storage h_addr = false ∧
        e = mast_error h_addr := by
  unfold apply_writes_to_state_node
  cases hb : w.storage_trie_change with
  | false => intro he; cases he
  | true =>
    cases hl : alookup storage h_addr with
    | none =>
      intro he
      cases he
      exact ⟨rfl, by simp [acontains, hl], rfl⟩
    | some trie => intro he; cases he

theorem apply_writes_to_state_node_ok_contains (w : StateTrieWrites)
    (acct : MptAccountRlp) (h_addr : Nat)
    (storage : List (Nat × HashedPartialTrie)) (acct' : MptAccountRlp) :
    apply_writes_to_state_node w acct h_addr storage = .ok acct' →
      w.storage_trie_change = true → acontains storage h_addr = true := by
  unfold apply_writes_to_state_node
  cases hb : w.storage_trie_change with
  | false => intro _ hcon; cases hcon
  | true =>
    cases hl : alookup storage h_addr with
    | none => intro hok; cases hok
    | some trie => intro _ _; simp [acontains, hl]

theorem apply_state_writes_error_shape
    (sws : List (Nat × StateTrieWrites)) :
    ∀ state storage e, apply_state_writes sws state storage = .error e →
      (∃ b, e = TraceDecodingError.new (.AccountDecode b)) ∨
      (∃ h w, (h, w) ∈ sws ∧ w.storage_trie_change = true ∧
        acontains storage h = false ∧ e = mast_error h) := by
  induction sws with
  | nil => intro state storage e he; cases he
  | cons p rest ih =>
    intro state storage e he
    obtain ⟨h_addr, w⟩ := p
    unfold apply_state_writes at he
    cases hd : account_from_rlped_bytes
        ((state.get h_addr).getD EMPTY_ACCOUNT_BYTES_RLPED) with
    | error e1 =>
      rw [hd] at he
      cases he
      unfold account_from_rlped_bytes at hd
      rcases hbytes : (state.get h_addr).getD EMPTY_ACCOUNT_BYTES_RLPED with
          _ | ⟨b1, l1⟩
      · rw [hbytes] at hd
        cases hd
        exact .inl ⟨_, rfl⟩
      · rw [hbytes] at hd
        rcases l1 with _ | ⟨b2, l2⟩
        · cases hd
          exact .inl ⟨_, rfl⟩
        · rcases l2 with _ | ⟨b3, l3⟩
          · cases hd
            exact .inl ⟨_, rfl⟩
          · rcases l3 with _ | ⟨b4, l4⟩
            · cases hd
              exact .inl ⟨_, rfl⟩
            · rcases l4 with _ | ⟨b5, l5⟩
              · cases hd
              · cases hd
                exact .inl ⟨_, rfl⟩
    | ok acct =>
      rw [hd] at he
      simp only at he
      cases hw : apply_writes_to_state_node w acct h_addr storage with
      | error e2 =>
        rw [hw] at he
        cases he
        obtain ⟨hflag, hcont, hform⟩ :=
          apply_writes_to_state_node_error w acct h_addr storage _ hw
        exact .inr ⟨h_addr, w, List.mem_cons_self _ _, hflag, hcont, hform⟩
      | ok acct' =>
        rw [hw] at he
        simp only at he
        rcases ih _ _ _ he with hdec | ⟨h', w', hmem, hflag, hcont, hform⟩
        · exact .inl hdec
        · exact .inr ⟨h', w', List.mem_cons_of_mem _ hmem, hflag, hcont,
            hform⟩

theorem apply_self_destructs_error_shape (sd : List Nat) :
    ∀ storage state out e, apply_self_destructs sd storage state out
        = .error e →
      ∃ h pre post, sd = pre ++ h :: post ∧
        (acontains storage h = false ∨ h ∈ pre) ∧ e = mast_error h := by
  induction sd with
  | nil => intro storage state out e he; cases he
  | cons a rest ih =>
    intro storage state out e he
    unfold apply_self_destructs at he
    by_cases hc : acontains storage a
    · rw [if_pos hc] at he
      obtain ⟨h, pre, post, hsd, hcond, hform⟩ := ih _ _ _ _ he
      refine ⟨h, a :: pre, post, by rw [hsd]; rfl, ?_, hform⟩
      rcases hcond with hfalse | hpre
      · rw [acontains, alookup_aremove] at hfalse
        by_cases hha : h = a
        · exact .inr (by simp [hha])
        · rw [if_neg hha] at hfalse
          exact .inl hfalse
      · exact .inr (List.mem_cons_of_mem _ hpre)
    · rw [if_neg hc] at he
      cases he
      exact ⟨a, [], rest, rfl, .inl (by simpa using hc), rfl⟩

theorem apply_storage_writes_error_of_missing
    (writes : List (Nat × List (Nat × Bytes))) :
    ∀ storage out h_addr ws, (h_addr, ws) ∈ writes →
      acontains storage h_addr = false →
      ∃ e, apply_storage_writes writes storage out = .error e := by
  induction writes with
  | nil => intro storage out h_addr ws hm; cases hm
  | cons w rest ih =>
    intro storage out h_addr ws hm hcont
    obtain ⟨h', ws'⟩ := w
    unfold apply_storage_writes
    cases hl : alookup storage h' with
    | none => exact ⟨_, rfl⟩
    | some trie =>
      simp only
      have hne : ¬ (h_addr = h' ∧ ws = ws') := by
        intro ⟨hh, _⟩
        rw [hh] at hcont
        simp [acontains, hl] at hcont
      have hmem : (h_addr, ws) ∈ rest := by
        rcases List.mem_cons.mp hm with hh | hh
        · exact absurd ⟨congrArg Prod.fst hh, congrArg Prod.snd hh⟩ hne
        · exact hh
      exact ih _ _ h_addr ws hmem
        (by rw [acontains_ainsert_of_mem _ _ _ _ (by simp [acontains, hl])]
            exact hcont)

theorem apply_state_writes_error_of_missing
    (sws : List (Nat × StateTrieWrites)) :
    ∀ state storage h w, (h, w) ∈ sws → w.storage_trie_change = true →
      acontains storage h = false →
      ∃ e, apply_state_writes sws state storage = .error e := by
  induction sws with
  | nil => intro state storage h w hm; cases hm
  | cons p rest ih =>
    intro state storage h w hm hflag hcont
    obtain ⟨h', w'⟩ := p
    unfold apply_state_writes
    cases hd : account_from_rlped_bytes
        ((state.get h').getD EMPTY_ACCOUNT_BYTES_RLPED) with
    | error e1 => exact ⟨e1, rfl⟩
    | ok acct =>
      simp only
      cases hw : apply_writes_to_state_node w' acct h' storage with
      | error e2 => exact ⟨e2, rfl⟩
      | ok acct' =>
        simp only
        have hmem : (h, w) ∈ rest := by
          rcases List.mem_cons.mp hm with hh | hh
          · have hh1 : h = h' := congrArg Prod.fst hh
            have hh2 : w = w' := congrArg Prod.snd hh
            rw [hh1] at hcont
            rw [hh2] at hflag
            rw [apply_writes_to_state_node_ok_contains w' acct h' storage
              acct' hw hflag] at hcont
            cases hcont
          · exact hh
        exact ih _ _ h w hmem hflag hcont

theorem apply_self_destructs_error_of_cond (pre : List Nat) :
    ∀ post storage state out h, (acontains storage h = false ∨ h ∈ pre) →
      ∃ e, apply_self_destructs (pre ++ h :: post) storage state out
        = .error e := by
  induction pre with
  | nil =>
    intro post storage state out h hcond
    rcases hcond with hfalse | hpre
    · rw [List.nil_append]
      simp only [apply_self_destructs]
      rw [if_neg (by simp [hfalse])]
      exact ⟨_, rfl⟩
    · cases hpre
  | cons a pre' ih =>
    intro post storage state out h hcond
    show ∃ e, apply_self_destructs (a :: (pre' ++ h :: post)) storage state
      out = .error e
    simp only [apply_self_destructs]
    by_cases hc : acontains storage a
    · rw [if_pos hc]
      refine ih post _ _ _ h ?_
      rcases hcond with hfalse | hpre
      · refine .inl ?_
        rw [acontains, alookup_aremove]
        by_cases hha : h = a
        · simp [hha]
        · rw [if_neg hha]
          simpa [acontains] using hfalse
      · rcases List.mem_cons.mp hpre with hh | hh
        · subst hh
          refine .inl ?_
          rw [acontains, alookup_aremove, if_pos rfl]
          rfl
        · exact .inr hh
    · rw [if_neg hc]
      exact ⟨_, rfl⟩

/-- C6 (amended): a missing-account-storage-trie failure of delta
application always carries the hashed account address and arises only from a
storage write targeting an account with no storage trie, a state write
flagged as changing the storage root on an account with no storage trie, or
a self-destruct whose account has no storage-trie entry at its turn
(initially absent, or already consumed by an earlier self-destruct of the
block's list); conversely any of these conditions forces delta application
to fail — with this error unless an earlier-sequenced operation fails first
— and in particular a repeated self-destruct of the same account always
fails with this error. -/
theorem missing_account_storage_trie_error_characterization :
    (∀ trie_state deltas e,
      apply_deltas_to_trie_state trie_state deltas = .error e →
      ∀ h, e.reason = .MissingAccountStorageTrie h →
        e.h_addr = some h ∧
        ((∃ ws, (h, ws) ∈ deltas.storage_writes ∧
            acontains trie_state.storage h = false) ∨
         (∃ w, (h, w) ∈ deltas.state_writes ∧ w.storage_trie_change = true ∧
            acontains trie_state.storage h = false) ∨
         (∃ pre post, deltas.self_destructed_accounts = pre ++ h :: post ∧
            (acontains trie_state.storage h = false ∨ h ∈ pre)))) ∧
    (∀ trie_state deltas,
      ((∃ h ws, (h, ws) ∈ deltas.storage_writes ∧
          acontains trie_state.storage h = false) ∨
       (∃ h w, (h, w) ∈ deltas.state_writes ∧ w.storage_trie_change = true ∧
          acontains trie_state.storage h = false) ∨
       (∃ h pre post, deltas.self_destructed_accounts = pre ++ h :: post ∧
          (acontains trie_state.storage h = false ∨ h ∈ pre))) →
      ∃ e, apply_deltas_to_trie_state trie_state deltas = .error e) ∧
    (∀ storage state out h, acontains storage h = true →
      apply_self_destructs [h, h] storage state out = .error (mast_error h)) := by
  refine ⟨?_, ?_, ?_⟩
  · intro trie_state deltas e he h hreason
    unfold apply_deltas_to_trie_state at he
    cases h1 : apply_storage_writes deltas.storage_writes trie_state.storage
        TrieDeltaApplicationOutput.default with
    | error e1 =>
      rw [h1] at he
      cases he
      obtain ⟨h', ws, hmem, hcont, hform⟩ :=
        apply_storage_writes_error_iff_missing _ _ _ _ h1
      rw [hform] at hreason
      cases hreason
      exact ⟨by rw [hform]; rfl, .inl ⟨ws, hmem, hcont⟩⟩
    | ok r1 =>
      rw [h1] at he
      simp only at he
      cases h2 : apply_state_writes deltas.state_writes trie_state.state
          r1.1 with
      | error e2 =>
        rw [h2] at he
        cases he
        rcases apply_state_writes_error_shape _ _ _ _ h2 with
            ⟨b, hform⟩ | ⟨h', w, hmem, hflag, hcont, hform⟩
        · rw [hform] at hreason
          cases hreason
        · rw [hform] at hreason
          cases hreason
          rw [apply_storage_writes_preserves_keys _ _ _ _ h1] at hcont
          exact ⟨by rw [hform]; rfl, .inr (.inl ⟨w, hmem, hflag, hcont⟩)⟩
      | ok state2 =>
        rw [h2] at he
        simp only at he
        cases h3 : apply_self_destructs deltas.self_destructed_accounts r1.1
            state2 r1.2 with
        | error e3 =>
          rw [h3] at he
          cases he
          obtain ⟨h', pre, post, hsd, hcond, hform⟩ :=
            apply_self_destructs_error_shape _ _ _ _ _ h3
          rw [hform] at hreason
          cases hreason
          rw [apply_storage_writes_preserves_keys _ _ _ _ h1] at hcond
          exact ⟨by rw [hform]; rfl, .inr (.inr ⟨pre, post, hsd, hcond⟩)⟩
        | ok r3 =>
          rw [h3] at he
          simp only at he
          cases he
  · intro trie_state deltas hcond
    unfold apply_deltas_to_trie_state
    cases h1 : apply_storage_writes deltas.storage_writes trie_state.storage
        TrieDeltaApplicationOutput.default with
    | error e1 => exact ⟨e1, rfl⟩
    | ok r1 =>
      simp only
      rcases hcond with ⟨h, ws, hmem, hcont⟩ | ⟨h, w, hmem, hflag, hcont⟩ |
          ⟨h, pre, post, hsd, hcond3⟩
      · obtain ⟨e0, he0⟩ := apply_storage_writes_error_of_missing _
          trie_state.storage TrieDeltaApplicationOutput.default h ws hmem
          hcont
        rw [he0] at h1
        cases h1
      · have hcont' : acontains r1.1 h = false := by
          rw [apply_storage_writes_preserves_keys _ _ _ _ h1]
          exact hcont
        obtain ⟨e2, he2⟩ := apply_state_writes_error_of_missing _
          trie_state.state r1.1 h w hmem hflag hcont'
        rw [he2]
        exact ⟨e2, rfl⟩
      · cases h2 : apply_state_writes deltas.state_writes trie_state.state
            r1.1 with
        | error e2 => exact ⟨e2, rfl⟩
        | ok state2 =>
          simp only
          have hcond' : acontains r1.1 h = false ∨ h ∈ pre := by
            rcases hcond3 with hfalse | hpre
            · exact .inl (by
                rw [apply_storage_writes_preserves_keys _ _ _ _ h1]
                exact hfalse)
            · exact .inr hpre
          obtain ⟨e3, he3⟩ := apply_self_destructs_error_of_cond pre post
            r1.1 state2 r1.2 h hcond'
          rw [hsd, he3]
          exact ⟨e3, rfl⟩
  · intro storage state out h hc
    show apply_self_destructs (h :: [h]) storage state out
      = .error (mast_error h)
    unfold apply_self_destructs
    rw [if_pos hc]
    unfold apply_self_destructs
    rw [if_neg (by rw [acontains, alookup_aremove, if_pos rfl]; simp)]
    rfl

/-- C6 counterexample: the "exactly when" direction fails — here the
self-destruct condition holds (account 7 has no storage trie) yet delta
application fails with an account-decode error raised earlier by a state
write over malformed account bytes, not with missing-account-storage-trie. -/
theorem missing_account_storage_trie_error_counterexample :
    (∃ pre post, ([7] : List Nat) = pre ++ 7 :: post ∧
      (acontains
        (PartialTrieState.mk (HashedPartialTrie.mk [(4, [9, 9])] none)
          HashedPartialTrie.empty HashedPartialTrie.empty []).storage 7
          = false ∨ 7 ∈ pre)) ∧
    apply_deltas_to_trie_state
        (PartialTrieState.mk (HashedPartialTrie.mk [(4, [9, 9])] none)
          HashedPartialTrie.empty HashedPartialTrie.empty [])
        (NodesUsedByTxn.mk [] [(4, StateTrieWrites.mk none none false none)]
          [] [] [7] [])
      = .error (TraceDecodingError.new (.AccountDecode [9, 9])) := by
  exact ⟨⟨[], [], rfl, .inl (by decide)⟩, rfl⟩

/-- Witness for C6 at concrete inputs: a storage write to account 3 with no
storage trie makes delta application fail with the missing-trie error
carrying hashed address 3, and a repeated self-destruct of account 2 fails
with the same error. -/
theorem missing_account_storage_trie_error_witness :
    (∃ e, apply_deltas_to_trie_state
        (PartialTrieState.mk HashedPartialTrie.empty HashedPartialTrie.empty
          HashedPartialTrie.empty [])
        (NodesUsedByTxn.mk [] [] [] [(3, [(5, [7])])] [] []) = .error e) ∧
    apply_self_destructs [2, 2] [(2, HashedPartialTrie.empty)]
        HashedPartialTrie.empty TrieDeltaApplicationOutput.default
      = .error (mast_error 2) := by
  constructor
  · exact missing_account_storage_trie_error_characterization.2.1 _ _
      (.inl ⟨3, [(5, [7])], by decide, by decide⟩)
  · exact missing_account_storage_trie_error_characterization.2.2 _ _ _ 2
      (by decide)

/-! ## C7 and C1: the transaction loop, counters and padding -/

theorem process_txn_info_ok (txn_idx : Nat)
    (txn_info : ProcessedSectionTxnInfo) (ts : PartialTrieState)
    (ed : MptExtraBlockData) (other : OtherBlockData)
    (r : GenerationInputs × PartialTrieState × MptExtraBlockData) :
    process_txn_info txn_idx txn_info ts ed other = .ok r →
      r.1.txn_number_before = ed.txn_number_before ∧
      r.1.gas_used_before = ed.gas_used_before ∧
      r.1.gas_used_after = ed.gas_used_after + txn_info.meta.gas_used ∧
      r.1.signed_txn = txn_info.meta.txn_bytes ∧
      r.1.withdrawals = [] ∧
      r.2.2.txn_number_before = ed.txn_number_before + 1 ∧
      r.2.2.txn_number_after = ed.txn_number_after + 1 ∧
      r.2.2.gas_used_before = ed.gas_used_after + txn_info.meta.gas_used ∧
      r.2.2.gas_used_after = ed.gas_used_after + txn_info.meta.gas_used := by
  intro hok
  simp only [process_txn_info] at hok
  split at hok
  · cases hok
  · split at hok
    · cases hok
    · cases hok
      exact ⟨rfl, rfl, rfl, rfl, rfl, rfl, rfl, rfl, rfl⟩

theorem map_eq_forall_mem {α β γ : Type} (f : α → γ) (g : β → γ)
    (P : γ → Prop) (us : List α) :
    ∀ ts : List β, us.map f = ts.map g → (∀ t ∈ ts, P (g t)) →
      ∀ u ∈ us, P (f u) := by
  induction us with
  | nil => intro ts _ _ u hu; cases hu
  | cons u rest ih =>
    intro ts hmap hP v hv
    cases ts with
    | nil => cases hmap
    | cons t ts' =>
      simp only [List.map_cons, List.cons.injEq] at hmap
      rcases List.mem_cons.mp hv with hh | hh
      · rw [hh, hmap.1]
        exact hP t (List.mem_cons_self _ _)
      · exact ih ts' hmap.2
          (fun t' ht' => hP t' (List.mem_cons_of_mem _ ht')) v hh

theorem process_txns_loop_ok (other : OtherBlockData)
    (txns : List ProcessedSectionTxnInfo) :
    ∀ i ts ed r,
      process_txns_loop other i txns ts ed = .ok r →
      r.1.length = txns.length ∧
      counter_chain ed.txn_number_before ed.gas_used_before r.1 ∧
      r.1.map (fun u => u.signed_txn) = txns.map (fun t => t.meta.txn_bytes) ∧
      (∀ u ∈ r.1, u.withdrawals = []) := by
  induction txns with
  | nil =>
    intro i ts ed r hok
    cases hok
    exact ⟨rfl, trivial, rfl, by intro u hu; cases hu⟩
  | cons t rest ih =>
    intro i ts ed r hok
    unfold process_txns_loop at hok
    cases h1 : process_txn_info i t ts ed other with
    | error e => rw [h1] at hok; cases hok
    | ok r1 =>
      rw [h1] at hok
      simp only at hok
      cases h2 : process_txns_loop other (i + 1) rest r1.2.1 r1.2.2 with
      | error e => rw [h2] at hok; cases hok
      | ok r2 =>
        rw [h2] at hok
        simp only [Except.map] at hok
        cases hok
        obtain ⟨hlen, hchain, hsigned, hwd⟩ :=
          ih (i + 1) r1.2.1 r1.2.2 r2 h2
        obtain ⟨htn, hgb, hga, hsig, hw, hedtn, _, hedgb, _⟩ :=
          process_txn_info_ok i t ts ed other r1 h1
        refine ⟨by simp [hlen], ⟨htn, hgb, ?_⟩, ?_, ?_⟩
        · rw [hga, ← hedgb, ← hedtn]
          exact hchain
        · simp only [List.map_cons, hsig, hsigned]
        · intro u hu
          rcases List.mem_cons.mp hu with hh | hh
          · rw [hh, hw]
          · exact hwd u hh

theorem counter_chain_pairs (us : List GenerationInputs) :
    ∀ tn g, counter_chain tn g us →
      (∀ u ∈ us, u.signed_txn.isSome = true) →
      ∀ i ui ui1, us.get? i = some ui → us.get? (i + 1) = some ui1 →
        ir_txn_number_after ui = ui1.txn_number_before ∧
          ui.gas_used_after = ui1.gas_used_before := by
  induction us with
  | nil => intro tn g _ _ i ui ui1 hi; cases hi
  | cons u rest ih =>
    intro tn g hchain hsigned i ui ui1 hi hi1
    obtain ⟨htn, hgb, hchain'⟩ := hchain
    cases i with
    | zero =>
      cases hi
      cases rest with
      | nil => cases hi1
      | cons v rest' =>
        cases hi1
        obtain ⟨hvtn, hvgb, _⟩ := hchain'
        constructor
        · unfold ir_txn_number_after
          rw [hsigned u (List.mem_cons_self _ _), htn, hvtn]
          simp
        · rw [hvgb]
    | succ j =>
      exact ih (tn + 1) u.gas_used_after hchain'
        (fun v hv => hsigned v (List.mem_cons_of_mem _ hv)) j ui ui1 hi hi1

/-- C7: in the padded IR sequence of a block whose real transactions all
carry raw transaction bytes, consecutive units agree on their counters —
unit i's transaction-number-after equals unit i+1's txn_number_before and
unit i's gas_used_after equals unit i+1's gas_used_before — and within each
successfully processed transaction the IR unit is assembled from the entry
before-counters while the returned extra data advances them to the after
values. -/
theorem counter_continuity_of_consecutive_ir_units :
    (∀ txns tries other ir,
      process_txns txns tries [] other = .ok ir →
      (∀ t ∈ txns, t.meta.txn_bytes.isSome = true) →
      ∀ i ui ui1, ir.get? i = some ui → ir.get? (i + 1) = some ui1 →
        ir_txn_number_after ui = ui1.txn_number_before ∧
          ui.gas_used_after = ui1.gas_used_before) ∧
    (∀ txn_idx txn_info ts ed other r,
      process_txn_info txn_idx txn_info ts ed other = .ok r →
        r.1.txn_number_before = ed.txn_number_before ∧
        r.1.gas_used_before = ed.gas_used_before ∧
        r.2.2.txn_number_before = ed.txn_number_before + 1 ∧
        r.2.2.gas_used_before = r.1.gas_used_after) := by
  constructor
  · intro txns tries other ir hok hreal i ui ui1 hi hi1
    simp only [process_txns] at hok
    cases hloop : process_txns_loop other 0 txns tries
        (initial_extra_block_data other) with
    | error e => rw [hloop] at hok; cases hok
    | ok r =>
      rw [hloop] at hok
      have hir : pad_gen_inputs_with_dummy_inputs_if_needed r.1 other r.2.2
          (initial_extra_block_data other) tries r.2.1 = ir :=
        Except.ok.inj hok
      cases txns with
      | nil =>
        have hr : ([], tries, initial_extra_block_data other) = r := by
          exact Except.ok.inj hloop
        obtain ⟨hus, -, hed⟩ : r.1 = ([] : List GenerationInputs) ∧
            r.2.1 = tries ∧ r.2.2 = initial_extra_block_data other := by
          rw [← hr]
          exact ⟨rfl, rfl, rfl⟩
        rw [hus, hed] at hir
        rw [← hir] at hi hi1
        cases i with
        | zero =>
          cases hi
          cases hi1
          exact ⟨rfl, rfl⟩
        | succ j =>
          cases j with
          | zero => cases hi1
          | succ k => cases hi
      | cons t rest =>
        cases rest with
        | nil =>
          unfold process_txns_loop at hloop
          cases hinfo : process_txn_info 0 t tries
              (initial_extra_block_data other) other with
          | error e => rw [hinfo] at hloop; cases hloop
          | ok r1 =>
            rw [hinfo] at hloop
            simp only at hloop
            have hstep : process_txns_loop other 1 [] r1.2.1 r1.2.2
                = .ok ([], r1.2.1, r1.2.2) := rfl
            rw [hstep] at hloop
            simp only [Except.map] at hloop
            have hr : ([r1.1], r1.2.1, r1.2.2) = r := Except.ok.inj hloop
            have hus : r.1 = [r1.1] := by rw [← hr]
            rw [hus] at hir
            rw [← hir] at hi hi1
            obtain ⟨htn, hgb, -⟩ :=
              process_txn_info_ok 0 t tries (initial_extra_block_data other)
                other r1 hinfo
            cases i with
            | zero =>
              cases hi
              cases hi1
              constructor
              · rw [htn]
                rfl
              · rw [hgb]
                rfl
            | succ j =>
              cases j with
              | zero => cases hi1
              | succ k => cases hi
        | cons t2 rest2 =>
          obtain ⟨hlen, hchain, hsignedmap, -⟩ :=
            process_txns_loop_ok other (t :: t2 :: rest2) 0 tries
              (initial_extra_block_data other) r hloop
          have hsig : ∀ u ∈ r.1, u.signed_txn.isSome = true :=
            map_eq_forall_mem (fun u => u.signed_txn)
              (fun t' => t'.meta.txn_bytes) (fun o => o.isSome = true)
              r.1 (t :: t2 :: rest2) hsignedmap hreal
          match hus : r.1, hlen with
          | a :: b :: us', _ =>
            rw [hus] at hir
            have hpad : pad_gen_inputs_with_dummy_inputs_if_needed
                (a :: b :: us') other r.2.2 (initial_extra_block_data other)
                tries r.2.1 = a :: b :: us' := rfl
            rw [hpad] at hir
            rw [hus] at hchain
            rw [hus] at hsig
            rw [← hir] at hi hi1
            exact counter_chain_pairs (a :: b :: us') 0 0 hchain hsig i ui
              ui1 hi hi1
  · intro txn_idx txn_info ts ed other r hok
    obtain ⟨h1, h2, h3, -, -, h6, -, h8, -⟩ :=
      process_txn_info_ok txn_idx txn_info ts ed other r hok
    exact ⟨h1, h2, h6, by rw [h8, h3]⟩

/-- Witness for C7 at a concrete one-transaction block: the prepended dummy
at index 0 and the real transaction at index 1 agree on their counters. -/
theorem counter_continuity_of_consecutive_ir_units_witness :
    ir_txn_number_after
        ((((process_txns [sample_txn] sample_tries [] sample_other_data
          ).toOption.getD []).get? 0).getD default) =
      ((((process_txns [sample_txn] sample_tries [] sample_other_data
          ).toOption.getD []).get? 1).getD default).txn_number_before ∧
    ((((process_txns [sample_txn] sample_tries [] sample_other_data
          ).toOption.getD []).get? 0).getD default).gas_used_after =
      ((((process_txns [sample_txn] sample_tries [] sample_other_data
          ).toOption.getD []).get? 1).getD default).gas_used_before :=
  counter_continuity_of_consecutive_ir_units.1 [sample_txn] sample_tries
    sample_other_data
    ((process_txns [sample_txn] sample_tries [] sample_other_data
      ).toOption.getD [])
    rfl
    (by
      intro t ht
      rw [List.mem_singleton.mp ht]
      rfl)
    0 _ _ rfl rfl

theorem pad_of_two_le (us : List GenerationInputs) (other : OtherBlockData)
    (fe ie : MptExtraBlockData) (it ft : PartialTrieState)
    (h : 2 ≤ us.length) :
    pad_gen_inputs_with_dummy_inputs_if_needed us other fe ie it ft = us := by
  match us with
  | [] => simp at h
  | [x] => simp at h
  | a :: b :: rest => rfl

/-- C1: for every block (processed without withdrawals so that the padded
sequence is returned as-is): a zero-transaction block yields exactly two
identical dummy units built from the initial extra data and pre-block tries,
each with no signed transaction, equal before/after counters and trie roots
equal to the pre-block trie hashes; a one-transaction block gets exactly one
such dummy prepended with the real transaction's unit at index 1; a block
with two or more transactions is returned unpadded with one unit per
transaction. -/
theorem padding_of_ir_sequence :
    ∀ txns tries other ir,
      process_txns txns tries [] other = .ok ir →
      (txns = [] →
        ir = [create_dummy_gen_input other (initial_extra_block_data other)
                tries,
              create_dummy_gen_input other (initial_extra_block_data other)
                tries] ∧
        (∀ u ∈ ir, u.signed_txn = none ∧
          u.gas_used_before = u.gas_used_after ∧
          ir_txn_number_after u = u.txn_number_before ∧
          u.trie_roots_after = calculate_trie_input_hashes tries)) ∧
      (∀ t, txns = [t] →
        ∃ r1, process_txn_info 0 t tries (initial_extra_block_data other)
            other = .ok r1 ∧
          ir = [create_dummy_gen_input other (initial_extra_block_data other)
                  tries, r1.1]) ∧
      (2 ≤ txns.length →
        ∃ r, process_txns_loop other 0 txns tries
            (initial_extra_block_data other) = .ok r ∧
          ir = r.1 ∧ ir.length = txns.length) := by
  intro txns tries other ir hok
  simp only [process_txns] at hok
  cases hloop : process_txns_loop other 0 txns tries
      (initial_extra_block_data other) with
  | error e => rw [hloop] at hok; cases hok
  | ok r =>
    rw [hloop] at hok
    have hir : pad_gen_inputs_with_dummy_inputs_if_needed r.1 other r.2.2
        (initial_extra_block_data other) tries r.2.1 = ir :=
      Except.ok.inj hok
    refine ⟨?_, ?_, ?_⟩
    · intro htxns
      subst htxns
      have hr : ([], tries, initial_extra_block_data other) = r :=
        Except.ok.inj hloop
      have hus : r.1 = ([] : List GenerationInputs) := by rw [← hr]
      have hed : r.2.2 = initial_extra_block_data other := by rw [← hr]
      rw [hus, hed] at hir
      constructor
      · rw [← hir]
        rfl
      · intro u hu
        rw [← hir] at hu
        have hud : u = create_dummy_gen_input other
            (initial_extra_block_data other) tries := by
          rcases List.mem_cons.mp hu with hh | hh
          · exact hh
          · rcases List.mem_cons.mp hh with hh2 | hh2
            · exact hh2
            · cases hh2
        subst hud
        refine ⟨rfl, rfl, rfl, ?_⟩
        simp [create_dummy_gen_input, create_dummy_gen_input_common,
          create_dummy_proof_trie_inputs,
          create_fully_hashed_out_sub_partial_trie,
          HashedPartialTrie.hash_hashOnly, calculate_trie_input_hashes]
    · intro t htxns
      subst htxns
      unfold process_txns_loop at hloop
      cases hinfo : process_txn_info 0 t tries
          (initial_extra_block_data other) other with
      | error e => rw [hinfo] at hloop; cases hloop
      | ok r1 =>
        rw [hinfo] at hloop
        simp only at hloop
        have hstep : process_txns_loop other 1 [] r1.2.1 r1.2.2
            = .ok ([], r1.2.1, r1.2.2) := rfl
        rw [hstep] at hloop
        simp only [Except.map] at hloop
        have hr : ([r1.1], r1.2.1, r1.2.2) = r := Except.ok.inj hloop
        have hus : r.1 = [r1.1] := by rw [← hr]
        rw [hus] at hir
        exact ⟨r1, rfl, by rw [← hir]; rfl⟩
    · intro hlen2
      obtain ⟨hlen, -, -, -⟩ :=
        process_txns_loop_ok other txns 0 tries
          (initial_extra_block_data other) r hloop
      have hpad := pad_of_two_le r.1 other r.2.2
        (initial_extra_block_data other) tries r.2.1 (by rw [hlen]; exact hlen2)
      rw [hpad] at hir
      exact ⟨r, rfl, by rw [← hir], by rw [← hir, hlen]⟩

/-- Witness for C1 at a concrete zero-transaction block: the returned IR
sequence is exactly the dummy pair. -/
theorem padding_of_ir_sequence_witness :
    (process_txns [] sample_tries [] sample_other_data).toOption.getD []
      = [create_dummy_gen_input sample_other_data
          (initial_extra_block_data sample_other_data) sample_tries,
         create_dummy_gen_input sample_other_data
          (initial_extra_block_data sample_other_data) sample_tries] :=
  ((padding_of_ir_sequence [] sample_tries sample_other_data
    ((process_txns [] sample_tries [] sample_other_data).toOption.getD [])
    rfl).1 rfl).1

/-! ## C5: error context accumulation and rendering -/

theorem process_txns_loop_error_txn_idx (other : OtherBlockData)
    (txns : List ProcessedSectionTxnInfo) :
    ∀ i ts ed e, process_txns_loop other i txns ts ed = .error e →
      ∃ j, e.txn_idx = some j := by
  induction txns with
  | nil => intro i ts ed e he; cases he
  | cons t rest ih =>
    intro i ts ed e he
    unfold process_txns_loop at he
    cases h1 : process_txn_info i t ts ed other with
    | error e1 =>
      rw [h1] at he
      cases he
      exact ⟨i, rfl⟩
    | ok r1 =>
      rw [h1] at he
      simp only at he
      cases h2 : process_txns_loop other (i + 1) rest r1.2.1 r1.2.2 with
      | error e2 =>
        rw [h2] at he
        simp only [Except.map] at he
        cases he
        exact ih (i + 1) r1.2.1 r1.2.2 _ h2
      | ok r2 =>
        rw [h2] at he
        simp only [Except.map] at he
        cases he

/-- C5 (amended): a failing transaction's error is stamped with its index by
the loop and with the block number and — unconditionally — the chain id by
the block-level caller; a storage-write failure on a missing-trie account
renders the reason line (which names the hashed account) followed by one
line per populated context field, so for account 9, slot 5 in transaction 3
of block 7 on chain 1 the message lists block number, chain id, transaction
index and hashed address but no slot line, since the missing-trie error site
attaches only the hashed address (and the insert-failure site would attach
only the slot and value). -/
theorem storage_write_failure_error_context :
    (∀ txns tries other e,
      process_txns txns tries [] other = .error e →
      e.block_num = some other.b_meta.block_number ∧
      e.block_chain_id = some other.b_meta.block_chain_id ∧
      ∃ j, e.txn_idx = some j) ∧
    (process_txns [sample_txn, sample_txn, sample_txn, sample_failing_txn]
        sample_tries [] sample_other_data
        = .error sample_storage_write_error ∧
      sample_storage_write_error.render_lines =
        ["Error processing trace: Missing account storage trie in base trie when constructing subset partial trie for txn (account: 9)",
         "Block num: 7", "Block chain id: 1", "Txn idx: 3",
         "Hashed address: 9"]) := by
  constructor
  · intro txns tries other e hok
    simp only [process_txns] at hok
    cases hloop : process_txns_loop other 0 txns tries
        (initial_extra_block_data other) with
    | error e0 =>
      rw [hloop] at hok
      cases hok
      obtain ⟨j, hj⟩ :=
        process_txns_loop_error_txn_idx other txns 0 tries
          (initial_extra_block_data other) e0 hloop
      exact ⟨rfl, rfl, j, hj⟩
    | ok r =>
      rw [hloop] at hok
      cases hok
  · exact ⟨rfl, rfl⟩

/-- C5 counterexample: in the concrete storage-write failure on account 9,
slot 5 during transaction 3 of block 7, the rendered message does contain
the block number, chain id and transaction index lines, but the slot context
field is never populated, so no slot line appears — contradicting both the
claimed slot line and the claimed omission of the chain id. -/
theorem storage_write_failure_error_context_counterexample :
    process_txns [sample_txn, sample_txn, sample_txn, sample_failing_txn]
        sample_tries [] sample_other_data
      = .error sample_storage_write_error ∧
    "Block num: 7" ∈ sample_storage_write_error.render_lines ∧
    "Block chain id: 1" ∈ sample_storage_write_error.render_lines ∧
    "Txn idx: 3" ∈ sample_storage_write_error.render_lines ∧
    sample_storage_write_error.slot = none ∧
    "Slot: 0x5" ∉ sample_storage_write_error.render_lines := by
  refine ⟨rfl, ?_, ?_, ?_, rfl, ?_⟩ <;> decide

/-- Witness for C5 at the concrete failing block: the surfaced error carries
block number 7, chain id 1 and a transaction index. -/
theorem storage_write_failure_error_context_witness :
    ∃ e, process_txns [sample_txn, sample_txn, sample_txn,
        sample_failing_txn] sample_tries [] sample_other_data = .error e ∧
      e.block_num = some 7 ∧ e.block_chain_id = some 1 ∧
      ∃ j, e.txn_idx = some j := by
  obtain ⟨e, he⟩ : ∃ e, process_txns [sample_txn, sample_txn, sample_txn,
      sample_failing_txn] sample_tries [] sample_other_data = .error e :=
    ⟨_, rfl⟩
  have h := storage_write_failure_error_context.1 _ _ _ e he
  exact ⟨e, he, h.1, h.2.1, h.2.2⟩

/-! ## C3: withdrawals -/

/-- C3 (code bug): for a zero-transaction block with one withdrawal to an
account present in the pre-block state trie, the withdrawal folding
re-derives the dummy last unit's state-trie subset from the dummy's own
fully hash-collapsed state trie, so the minimal-subset builder fails with a
missing-keys error and the whole block processing errors out — even though
the live trie state's balance update itself would succeed, as the second
conjunct shows. -/
theorem withdrawals_on_dummy_last_unit_fail :
    process_txns [] sample_tries_with_account [(1, 5)] sample_other_data
      = .error (TraceDecodingError.new
          (.MissingKeysCreatingSubPartialTrie (model_hash 1) .State)) ∧
    (∃ st, update_trie_state_from_withdrawals [(1, model_hash 1, 5)]
        sample_tries_with_account.state = .ok st ∧
      st.get (model_hash 1) = some [11, 0, 0, 0]) := by
  exact ⟨rfl, ⟨_, rfl, rfl⟩⟩

end BcwZkEvm
